import Mathlib

/-
Verification development for the data-block module of the CoilSnake
repository (coilsnake/data_blocks.py).  The Python classes Block,
AllocatableBlock and Rom are shallowly embedded: byte buffers become
lists of natural numbers together with the separately tracked size
field that the Python code maintains, offsets and sizes become
integers (Python integers are unbounded), and every fallible
operation returns an Except value carrying the exception that the
Python code would raise.  Python list indexing with possibly negative
keys and Python slice semantics are modelled explicitly.
-/

namespace DataBlocks

/-- Exceptions raised by the module (coilsnake.exceptions), plus the
built-in Python exceptions that can escape the shown code paths:
IndexError from raw array indexing, OverflowError from packing an
out-of-range value into a byte array, and TypeError. -/
inductive Err where
  | outOfBounds
  | invalidArgument
  | valueNotUnsignedByte
  | couldNotAllocate
  | notEnoughUnallocatedSpace
  | indexError
  | overflowError
  | typeError
  deriving DecidableEq, Repr

/-- Decidable equality of Except results, used to evaluate the
embedded operations on concrete inputs. -/
instance {e a : Type} [DecidableEq e] [DecidableEq a] : DecidableEq (Except e a) := fun x y =>
  match x, y with
  | .ok v, .ok w => if h : v = w then .isTrue (by rw [h]) else .isFalse (by simp [h])
  | .error v, .error w => if h : v = w then .isTrue (by rw [h]) else .isFalse (by simp [h])
  | .ok _, .error _ => .isFalse (by simp)
  | .error _, .ok _ => .isFalse (by simp)

/-- The Block class state: a byte array (array.array of unsigned
bytes) and the separately maintained size attribute. -/
structure Block where
  data : List Nat
  size : Int
  deriving DecidableEq, Repr

/-- Python list or array read l[k]: a nonnegative index is counted
from the front, a negative index from the back; an index out of
either range raises IndexError (modelled as none). -/
def pyListGet (l : List Nat) (k : Int) : Option Nat :=
  if 0 ≤ k then l[k.toNat]?
  else if 0 ≤ (l.length : Int) + k then l[((l.length : Int) + k).toNat]?
  else none

/-- Python list or array write l[k] = v, with the same index rules as
pyListGet; returns the updated list or none for IndexError. -/
def pyListSet (l : List Nat) (k : Int) (v : Nat) : Option (List Nat) :=
  if 0 ≤ k then (if k < (l.length : Int) then some (l.set k.toNat v) else none)
  else if 0 ≤ (l.length : Int) + k then some (l.set ((l.length : Int) + k).toNat v)
  else none

/-- Python slice l[a:b] for 0 <= a <= b (the only shape reached in
this module after the explicit checks): elements a to b-1, clamped to
the list length. -/
def pySliceList (l : List Nat) (a b : Int) : List Nat :=
  (l.drop a.toNat).take (b.toNat - a.toNat)

/-- Block.__getitem__ with an int key: raises OutOfBoundsError only
when key >= size; any other key is handed to the underlying array,
where Python applies negative indexing. -/
def Block.getitem (blk : Block) (key : Int) : Except Err Nat :=
  if key ≥ blk.size then .error .outOfBounds
  else
    match pyListGet blk.data key with
    | some v => .ok v
    | none => .error .indexError

/-- Block.__setitem__ with an int key and int value: checks the value
is an unsigned byte, then raises OutOfBoundsError only when
key >= size; any other key is handed to the underlying array. -/
def Block.setitem (blk : Block) (key : Int) (item : Int) : Except Err Block :=
  if item < 0 ∨ item > 0xff then .error .valueNotUnsignedByte
  else if key ≥ blk.size then .error .outOfBounds
  else
    match pyListSet blk.data key item.toNat with
    | some l => .ok { blk with data := l }
    | none => .error .indexError

/-- Block.__getitem__ with a slice key: checks start <= stop, then
bounds, then returns a fresh Block built from the sliced array
(from_array copies and sets size to the length of the slice). -/
def Block.getslice (blk : Block) (start stop : Int) : Except Err Block :=
  if start > stop then .error .invalidArgument
  else if start < 0 ∨ stop - 1 ≥ blk.size then .error .outOfBounds
  else
    let sl := pySliceList blk.data start stop
    .ok { data := sl, size := (sl.length : Int) }

/-- Block.to_list. -/
def Block.to_list (blk : Block) : List Nat :=
  blk.data

/-- Block.__setitem__ with a slice key and a list value: the source
checks start <= stop, bounds, matching length and nonzero length, and
then assigns through array.array, which raises OverflowError if any
value does not fit in an unsigned byte. -/
def Block.setslice (blk : Block) (start stop : Int) (item : List Nat) : Except Err Block :=
  if start > stop then .error .invalidArgument
  else if start < 0 ∨ stop - 1 ≥ blk.size then .error .outOfBounds
  else if (item.length : Int) ≠ stop - start then .error .invalidArgument
  else if stop - start = 0 then .error .invalidArgument
  else if item.any (fun v => decide (v > 0xff)) then .error .overflowError
  else .ok { blk with data := blk.data.take start.toNat ++ item ++ blk.data.drop stop.toNat }

/-- The fold reduce(lambda x, y: (x << 8) | y, l) from Block.read_multi;
reduce of an empty sequence raises TypeError. -/
def pyReduceShiftOr (l : List Nat) : Except Err Nat :=
  match l with
  | [] => .error .typeError
  | x :: xs => .ok (xs.foldl (fun a y => (a <<< 8) ||| y) x)

/-- Block.read_multi: reads a little-endian unsigned integer of the
given width, by slicing and folding over the reversed byte list. -/
def Block.read_multi (blk : Block) (key size : Int) : Except Err Nat :=
  if size < 0 then .error .invalidArgument
  else if size = 0 then .ok 0
  else if key < 0 ∨ key ≥ blk.size ∨ key + size > blk.size then .error .outOfBounds
  else
    match blk.getslice key (key + size) with
    | .error e => .error e
    | .ok sl => pyReduceShiftOr sl.to_list.reverse

/-- Python item & 0xff on an arbitrary-precision integer: bitwise AND
with the byte mask equals the floor remainder modulo 256, which is
exactly the Lean emod operator used here. -/
def pyAndFF (x : Int) : Int :=
  x % 256

/-- The while loop of Block.write_multi: writes item & 0xff at key,
shifts item right by 8, and repeats size times. -/
def writeMultiLoop (blk : Block) (key item : Int) : Nat → Except Err Block
  | 0 => .ok blk
  | n + 1 =>
    match blk.setitem key (pyAndFF item) with
    | .error e => .error e
    | .ok blk1 => writeMultiLoop blk1 (key + 1) (item >>> (8 : Nat)) n

/-- Block.write_multi: validates the width and the span, then runs the
byte-writing loop. -/
def Block.write_multi (blk : Block) (key item size : Int) : Except Err Block :=
  if size < 0 then .error .invalidArgument
  else if key < 0 ∨ key ≥ blk.size ∨ key + size > blk.size then .error .outOfBounds
  else if size = 0 then .ok blk
  else writeMultiLoop blk key item size.toNat

/-- check_range_validity: InvalidArgumentError when end < begin,
OutOfBoundsError when begin < 0 or end >= size. -/
def check_range_validity (r : Int × Int) (size : Int) : Option Err :=
  if r.2 < r.1 then some .invalidArgument
  else if r.1 < 0 ∨ r.2 ≥ size then some .outOfBounds
  else none

/-- The AllocatableBlock class state: the underlying block plus the
list of unallocated (free) ranges, each an inclusive pair. -/
structure AllocatableBlock where
  block : Block
  unallocated_ranges : List (Int × Int)
  deriving DecidableEq, Repr

/-- The disjunction of the three branch guards of the loop body of
mark_allocated for one free entry r, with (ab, ae) the range being
marked: the loop acts on the first entry for which one of the three
guards holds and falls through entries where none does. -/
def caseMatch (ab ae : Int) (r : Int × Int) : Bool :=
  decide (ab = r.1) || (decide (ab > r.1) && decide (ae ≤ r.2)) ||
    (decide (ab > r.1) && decide (ab < r.2) && decide (ae > r.2))

/-- Splits the free list at the first entry matched by the
mark_allocated loop, returning the untouched prefix, the matched
entry and the suffix; none when the loop falls through. -/
def splitFirstMatch (ab ae : Int) : List (Int × Int) →
    Option (List (Int × Int) × (Int × Int) × List (Int × Int))
  | [] => none
  | r :: rest =>
    if caseMatch ab ae r then some ([], r, rest)
    else
      match splitFirstMatch ab ae rest with
      | some (l1, m, l2) => some (r :: l1, m, l2)
      | none => none

theorem splitFirstMatch_eq {ab ae : Int} {rs l1 l2 : List (Int × Int)} {m : Int × Int}
    (h : splitFirstMatch ab ae rs = some (l1, m, l2)) :
    rs = l1 ++ m :: l2 ∧ caseMatch ab ae m = true ∧ ∀ r ∈ l1, caseMatch ab ae r = false := by
  induction rs generalizing l1 with
  | nil => simp [splitFirstMatch] at h
  | cons r rest ih =>
    by_cases hc : caseMatch ab ae r
    · simp only [splitFirstMatch, hc, if_pos, Option.some.injEq, Prod.mk.injEq] at h
      obtain ⟨h1, h2, h3⟩ := h
      subst h1; subst h2; subst h3
      exact ⟨rfl, hc, by simp⟩
    · simp only [splitFirstMatch, hc, if_neg, Bool.false_eq_true, not_false_iff] at h
      cases hrec : splitFirstMatch ab ae rest with
      | none => rw [hrec] at h; exact absurd h (by simp)
      | some v =>
        obtain ⟨l1x, mx, l2x⟩ := v
        rw [hrec] at h
        simp only [Option.some.injEq, Prod.mk.injEq] at h
        obtain ⟨h1, h2, h3⟩ := h
        subst h2; subst h3
        obtain ⟨e1, e2, e3⟩ := ih hrec
        subst h1
        refine ⟨by simp [e1], e2, ?_⟩
        intro x hx
        rcases List.mem_cons.mp hx with hx | hx
        · subst hx; exact eq_false_of_ne_true hc
        · exact e3 x hx

/-- The lexicographic comparison Python uses when sorting a list of
integer pairs. -/
def pairLe (x y : Int × Int) : Bool :=
  decide (x.1 < y.1) || (decide (x.1 = y.1) && decide (x.2 ≤ y.2))

/-- Python list.sort on a list of integer pairs: a stable sort by the
lexicographic order. -/
def pySortRanges (l : List (Int × Int)) : List (Int × Int) :=
  l.mergeSort pairLe

/-- AllocatableBlock.mark_allocated, as a function from the free list,
the requested inclusive range (ab, ae) and the block size to the free
list at return or raise time together with the raised exception, if
any.  The for loop with in-place mutation and break becomes a split
at the first matching entry; the recursive calls mirror the source's
self.mark_allocated calls on the mutated list. -/
def mark_allocated (rs : List (Int × Int)) (ab ae size : Int) :
    List (Int × Int) × Option Err :=
  match check_range_validity (ab, ae) size with
  | some e => (rs, some e)
  | none =>
    match hsp : splitFirstMatch ab ae rs with
    | none => (rs, some .couldNotAllocate)
    | some (l1, (b, e), l2) =>
      if hab : ab = b then
        if ae < e then (l1 ++ (ae + 1, e) :: l2, none)
        else if ae = e then (l1 ++ l2, none)
        else mark_allocated (l1 ++ l2) (e + 1) ae size
      else if hbc : ab > b ∧ ae ≤ e then
        if ae ≠ e then (pySortRanges (l1 ++ (ae + 1, e) :: (b, ab - 1) :: l2), none)
        else (l1 ++ (b, ab - 1) :: l2, none)
      else
        mark_allocated (l1 ++ (b, ab - 1) :: l2) (e + 1) ae size
termination_by (rs.length, (ae - ab).toNat)
decreasing_by
  · have hsplit := (splitFirstMatch_eq hsp).1
    apply Prod.Lex.left
    rw [hsplit]
    simp [List.length_append]
  · have hsplit := splitFirstMatch_eq hsp
    have hcm := hsplit.2.1
    simp only [caseMatch, Bool.or_eq_true, Bool.and_eq_true, decide_eq_true_eq] at hcm
    have hlen : (l1 ++ (b, ab - 1) :: l2).length = rs.length := by
      rw [hsplit.1]; simp [List.length_append]
    rw [hlen]
    apply Prod.Lex.right
    omega

/-- AllocatableBlock.is_unallocated: true when the queried range lies
wholly within a single free entry. -/
def is_unallocated (rs : List (Int × Int)) (size : Int) (r : Int × Int) :
    Except Err Bool :=
  match check_range_validity r size with
  | some e => .error e
  | none => .ok (rs.any fun a => decide (r.1 ≥ a.1) && decide (r.2 ≤ a.2))

/-- AllocatableBlock.is_allocated: the negation of is_unallocated. -/
def is_allocated (rs : List (Int × Int)) (size : Int) (r : Int × Int) :
    Except Err Bool :=
  match is_unallocated rs size r with
  | .error e => .error e
  | .ok b => .ok (!b)

/-- The can_write_to placement test of allocate: an absent predicate
always passes. -/
def predOk (p : Option (Int → Bool)) (b : Int) : Bool :=
  match p with
  | none => true
  | some f => f b

/-- The free-range search loop of allocate: the first entry long
enough whose begin passes the placement predicate is consumed from
the front (deleted when used up exactly); entries failing either test
are kept and the search continues. -/
def allocLoop (sz : Int) (p : Option (Int → Bool)) :
    List (Int × Int) → Option (List (Int × Int) × (Int × Int))
  | [] => none
  | (b, e) :: rest =>
    if sz ≤ e - b + 1 ∧ predOk p b then
      some ((if b + sz - 1 = e then rest else (b + sz, e) :: rest), (b, b + sz - 1))
    else
      match allocLoop sz p rest with
      | some (rs1, r) => some ((b, e) :: rs1, r)
      | none => none

/-- The effective requested size of allocate: the size parameter when
given, otherwise the length of the data parameter. -/
def effSize : Option (List Nat) → Option Int → Int
  | some d, none => (d.length : Int)
  | _, some s => s
  | none, none => 0

/-- The guard raising InvalidArgumentError when both data and size
are given and disagree. -/
def sizeMismatch : Option (List Nat) → Option Int → Bool
  | some d, some s => decide (s ≠ (d.length : Int))
  | _, _ => false

/-- The search-and-write part of AllocatableBlock.allocate, after the
parameter validation: find a free range first-fit, write the data if
given, and return the start offset.  The state component of the
result is the object state at return or raise time. -/
def allocateCore (st : AllocatableBlock) (data : Option (List Nat)) (sz : Int)
    (can_write_to : Option (Int → Bool)) : AllocatableBlock × Except Err Int :=
  match allocLoop sz can_write_to st.unallocated_ranges with
  | none => (st, .error .notEnoughUnallocatedSpace)
  | some (rs1, (ab, ae)) =>
    match data with
    | none => ({ st with unallocated_ranges := rs1 }, .ok ab)
    | some d =>
      match st.block.setslice ab (ae + 1) d with
      | .error e => ({ st with unallocated_ranges := rs1 }, .error e)
      | .ok blk => ({ block := blk, unallocated_ranges := rs1 }, .ok ab)

/-- AllocatableBlock.allocate: the parameter validation of the
source, followed by the search-and-write core. -/
def allocate (st : AllocatableBlock) (data : Option (List Nat)) (size : Option Int)
    (can_write_to : Option (Int → Bool)) : AllocatableBlock × Except Err Int :=
  if data = none ∧ size = none then (st, .error .invalidArgument)
  else if sizeMismatch data size then (st, .error .invalidArgument)
  else if effSize data size ≤ 0 then (st, .error .invalidArgument)
  else allocateCore st data (effSize data size) can_write_to

/-- The header-stripping side effect of Rom._detect_type: drop the
leading 0x200 bytes of the array and decrease size by 0x200. -/
def stripHeader (blk : Block) : Block :=
  { data := blk.data.drop 0x200, size := blk.size - 0x200 }

/-- Python ~v & 0xff for a byte v read from the array: bitwise
complement then AND with the byte mask, which on arbitrary-precision
two's-complement integers equals (-v - 1) modulo 256. -/
def pyComplByte (v : Nat) : Int :=
  (-(v : Int) - 1) % 256

/-- The body of one guarded variant probe of Rom._detect_type, before
exception handling: two complement-pair tests at the four given
offsets, short-circuited, then the signature comparison at sigOff.
Any OutOfBoundsError escapes to the caller. -/
def tryGo (blk : Block) (c1 c2 c3 c4 sigOff : Int) (sig : List Nat) : Except Err Bool :=
  match blk.getitem c1 with
  | .error e => .error e
  | .ok v1 =>
    match blk.getitem c2 with
    | .error e => .error e
    | .ok v2 =>
      if pyComplByte v1 ≠ (v2 : Int) then .ok false
      else
        match blk.getitem c3 with
        | .error e => .error e
        | .ok v3 =>
          match blk.getitem c4 with
          | .error e => .error e
          | .ok v4 =>
            if pyComplByte v3 ≠ (v4 : Int) then .ok false
            else
              match blk.getslice sigOff (sigOff + (sig.length : Int)) with
              | .error e => .error e
              | .ok sl => .ok (decide (sl.to_list = sig))

/-- One try/except block of Rom._detect_type: an OutOfBoundsError
while probing is treated as this variant not matching; any other
exception propagates. -/
def tryCheckVariant (blk : Block) (c1 c2 c3 c4 sigOff : Int) (sig : List Nat) :
    Except Err Bool :=
  match tryGo blk c1 c2 c3 c4 sigOff sig with
  | .error .outOfBounds => .ok false
  | .error e => .error e
  | .ok r => .ok r

/-- The SNES-platform branch of Rom._detect_type for one descriptor
with signature offset off and signature bytes sig: the four physical
variants are probed in the source's fixed order (unheadered HiROM,
unheadered LoROM, headered HiROM, headered LoROM); a headered match
strips the 0x200-byte copier header from the buffer as a side
effect.  Returns the possibly modified buffer on a match, none when
no variant matches. -/
def snesDetect (blk : Block) (off : Int) (sig : List Nat) : Except Err (Option Block) :=
  match tryCheckVariant blk 0xffdc 0xffde 0xffdd 0xffdf off sig with
  | .error e => .error e
  | .ok true => .ok (some blk)
  | .ok false =>
    match tryCheckVariant blk 0x7fdc 0x7fde 0x7fdd 0x7fdf off sig with
    | .error e => .error e
    | .ok true => .ok (some blk)
    | .ok false =>
      match tryCheckVariant blk 0x101dc 0x101de 0x101dd 0x101df (off + 0x200) sig with
      | .error e => .error e
      | .ok true => .ok (some (stripHeader blk))
      | .ok false =>
        match tryCheckVariant blk 0x81dc 0x81de 0x81dd 0x81df (off + 0x200) sig with
        | .error e => .error e
        | .ok true => .ok (some (stripHeader blk))
        | .ok false => .ok none

/-- The Rom class state relevant to expansion: the underlying buffer
and the detected type name. -/
structure Rom where
  block : Block
  type : String

/-- The mirroring loop of Rom.expand: for each of n iterations the
byte at offset i is copied to offset 0x400000 + i. -/
def expandCopyLoop (blk : Block) (i : Nat) : Nat → Except Err Block
  | 0 => .ok blk
  | n + 1 =>
    match blk.getitem (i : Int) with
    | .error e => .error e
    | .ok v =>
      match blk.setitem ((0x400000 : Int) + (i : Int)) (v : Int) with
      | .error e => .error e
      | .ok blk1 => expandCopyLoop blk1 (i + 1) n

/-- Rom.expand: only defined for the Earthbound type; only 0x400000
and 0x600000 are accepted targets; a 0x300000-byte buffer is first
padded to 0x400000; expanding to 0x600000 patches the two control
bytes at 0xffd5 and 0xffd7, appends 0x200000 zero bytes, and mirrors
the bytes at offsets 0x8000 to 0xffff to offsets 0x408000 to
0x40ffff.  Any other type raises NotImplementedError, modelled as the
typeError constructor. -/
def Rom.expand (r : Rom) (desired_size : Int) : Except Err Rom :=
  if r.type = "Earthbound" then
    if desired_size ≠ 0x400000 ∧ desired_size ≠ 0x600000 then .error .invalidArgument
    else
      let r1 : Rom :=
        if r.block.size = 0x300000 then
          { r with block := { data := r.block.data ++ List.replicate 0x100000 0,
                              size := r.block.size + 0x100000 } }
        else r
      if desired_size = 0x600000 ∧ r1.block.size = 0x400000 then
        match r1.block.setitem 0xffd5 0x25 with
        | .error e => .error e
        | .ok b1 =>
          match b1.setitem 0xffd7 0x0d with
          | .error e => .error e
          | .ok b2 =>
            let b3 : Block := { data := b2.data ++ List.replicate 0x200000 0,
                                size := b2.size + 0x200000 }
            match expandCopyLoop b3 0x8000 0x8000 with
            | .error e => .error e
            | .ok b4 => .ok { r1 with block := b4 }
      else .ok r1
  else .error .typeError

/-! Specification-level notions used to state the claims. -/

/-- Well-formedness of a Block: the size attribute agrees with the
length of the underlying array.  Every code path of the module that
builds a Block maintains this. -/
def sizeOk (blk : Block) : Prop :=
  blk.size = (blk.data.length : Int)

/-- The invariant of the array.array element type: every stored value
is an unsigned byte. -/
def bytesOk (blk : Block) : Prop :=
  ∀ v ∈ blk.data, v ≤ 0xff

/-- Every free entry is a valid inclusive range. -/
def validRanges (rs : List (Int × Int)) : Prop :=
  ∀ r ∈ rs, r.1 ≤ r.2

/-- The free list is sorted ascending by begin and pairwise disjoint,
with no two entries touching: each entry ends at least two before the
next begins. -/
def gapSorted (rs : List (Int × Int)) : Prop :=
  rs.Pairwise fun x y => x.2 + 1 < y.1

/-- The FreeRangeSet invariant of the data model: valid entries,
sorted ascending by begin, pairwise disjoint and non-touching. -/
def rangeInv (rs : List (Int × Int)) : Prop :=
  validRanges rs ∧ gapSorted rs

/-- A free entry qualifies for an allocation of sz at placement
predicate p: its length is at least sz and its begin passes p. -/
def fits (sz : Int) (p : Option (Int → Bool)) (r : Int × Int) : Prop :=
  sz ≤ r.2 - r.1 + 1 ∧ predOk p r.1 = true

instance (sz : Int) (p : Option (Int → Bool)) (r : Int × Int) :
    Decidable (fits sz p r) := by
  unfold fits; infer_instance

instance (rs : List (Int × Int)) : Decidable (validRanges rs) := by
  unfold validRanges; infer_instance

instance (rs : List (Int × Int)) : Decidable (gapSorted rs) := by
  unfold gapSorted; infer_instance

instance (rs : List (Int × Int)) : Decidable (rangeInv rs) := by
  unfold rangeInv; infer_instance

/-! Lemmas about splitFirstMatch and mark_allocated. -/

theorem splitFirstMatch_skip {ab ae : Int} (l1 : List (Int × Int))
    {m : Int × Int} (l2 : List (Int × Int))
    (hpre : ∀ r ∈ l1, caseMatch ab ae r = false) (hm : caseMatch ab ae m = true) :
    splitFirstMatch ab ae (l1 ++ m :: l2) = some (l1, m, l2) := by
  induction l1 with
  | nil => simp [splitFirstMatch, hm]
  | cons r rest ih =>
    have hr : caseMatch ab ae r = false := hpre r (by simp)
    simp only [List.cons_append, splitFirstMatch, hr, Bool.false_eq_true, if_false]
    rw [List.append_eq, ih fun x hx => hpre x (by simp [hx])]

theorem splitFirstMatch_none_of_all {ab ae : Int} {rs : List (Int × Int)}
    (h : ∀ r ∈ rs, caseMatch ab ae r = false) :
    splitFirstMatch ab ae rs = none := by
  induction rs with
  | nil => rfl
  | cons r rest ih =>
    have hr : caseMatch ab ae r = false := h r (by simp)
    simp only [splitFirstMatch, hr, Bool.false_eq_true, if_false]
    rw [ih fun x hx => h x (by simp [hx])]

/-- Unfolding of mark_allocated when the range check fails. -/
theorem mark_eq_err {rs : List (Int × Int)} {ab ae size : Int} {e : Err}
    (hv : check_range_validity (ab, ae) size = some e) :
    mark_allocated rs ab ae size = (rs, some e) := by
  rw [mark_allocated]
  split
  · rename_i e1 heq
    rw [hv] at heq
    cases heq
    rfl
  · rename_i heq
    rw [hv] at heq
    cases heq

/-- Unfolding of mark_allocated when the range is valid and the loop
matches no free entry. -/
theorem mark_eq_nomatch {rs : List (Int × Int)} {ab ae size : Int}
    (hv : check_range_validity (ab, ae) size = none)
    (hm : splitFirstMatch ab ae rs = none) :
    mark_allocated rs ab ae size = (rs, some .couldNotAllocate) := by
  rw [mark_allocated]
  split
  · rename_i e heq
    rw [hv] at heq
    cases heq
  · split
    · rfl
    · rename_i l1 b e l2 hsp
      rw [hm] at hsp
      cases hsp

/-- Unfolding of mark_allocated when the range is valid and the loop
stops at the entry (b, e) after skipping the prefix l1. -/
theorem mark_eq_some {rs l1 l2 : List (Int × Int)} {ab ae size b e : Int}
    (hv : check_range_validity (ab, ae) size = none)
    (hsp : splitFirstMatch ab ae rs = some (l1, (b, e), l2)) :
    mark_allocated rs ab ae size =
      if ab = b then
        if ae < e then (l1 ++ (ae + 1, e) :: l2, none)
        else if ae = e then (l1 ++ l2, none)
        else mark_allocated (l1 ++ l2) (e + 1) ae size
      else if ab > b ∧ ae ≤ e then
        if ae ≠ e then (pySortRanges (l1 ++ (ae + 1, e) :: (b, ab - 1) :: l2), none)
        else (l1 ++ (b, ab - 1) :: l2, none)
      else mark_allocated (l1 ++ (b, ab - 1) :: l2) (e + 1) ae size := by
  rw [mark_allocated]
  split
  · rename_i e1 heq
    rw [hv] at heq
    cases heq
  · split
    · rename_i heq
      rw [hsp] at heq
      cases heq
    · rename_i l1x bx ex l2x hx
      rw [hsp] at hx
      simp only [Option.some.injEq, Prod.mk.injEq] at hx
      obtain ⟨h1, ⟨h2, h3⟩, h4⟩ := hx
      subst h1; subst h2; subst h3; subst h4
      by_cases hab : ab = b
      · simp [hab]
      · by_cases hbc : ab > b ∧ ae ≤ e
        · simp [hab, hbc]
        · simp [hab, hbc]

/-- Successful mark_allocated implies the initial range check
passed. -/
theorem mark_ok_validity {rs rs1 : List (Int × Int)} {ab ae size : Int}
    (h : mark_allocated rs ab ae size = (rs1, none)) :
    check_range_validity (ab, ae) size = none := by
  cases hv : check_range_validity (ab, ae) size with
  | none => rfl
  | some e =>
    rw [mark_eq_err hv] at h
    simp at h

/-! Preservation lemmas for the free-range invariant. -/

theorem rangeInv_delete {l1 l2 : List (Int × Int)} {m : Int × Int}
    (h : rangeInv (l1 ++ m :: l2)) : rangeInv (l1 ++ l2) := by
  obtain ⟨hval, hgap⟩ := h
  constructor
  · intro r hr
    apply hval
    rcases List.mem_append.mp hr with hr | hr
    · exact List.mem_append.mpr (Or.inl hr)
    · exact List.mem_append.mpr (Or.inr (List.mem_cons_of_mem m hr))
  · rw [gapSorted, List.pairwise_append] at hgap ⊢
    obtain ⟨h1, h2, h3⟩ := hgap
    exact ⟨h1, (List.pairwise_cons.mp h2).2,
      fun a ha b hb => h3 a ha b (List.mem_cons_of_mem m hb)⟩

theorem rangeInv_replace_sub {l1 l2 : List (Int × Int)} {b e b1 e1 : Int}
    (h : rangeInv (l1 ++ (b, e) :: l2))
    (hb : b ≤ b1) (hbe : b1 ≤ e1) (he : e1 ≤ e) :
    rangeInv (l1 ++ (b1, e1) :: l2) := by
  obtain ⟨hval, hgap⟩ := h
  rw [gapSorted, List.pairwise_append, List.pairwise_cons] at hgap
  obtain ⟨h1, ⟨h2a, h2b⟩, h3⟩ := hgap
  constructor
  · intro r hr
    rcases List.mem_append.mp hr with hr | hr
    · exact hval r (List.mem_append.mpr (Or.inl hr))
    · rcases List.mem_cons.mp hr with hr | hr
      · rw [hr]; exact hbe
      · exact hval r (List.mem_append.mpr (Or.inr (List.mem_cons_of_mem _ hr)))
  · rw [gapSorted, List.pairwise_append, List.pairwise_cons]
    refine ⟨h1, ⟨?_, h2b⟩, ?_⟩
    · intro c hc
      have := h2a c hc
      simp only at this ⊢
      omega
    · intro a ha c hc
      rcases List.mem_cons.mp hc with hc | hc
      · have := h3 a ha (b, e) (by simp)
        subst hc
        simp only at this ⊢
        omega
      · exact h3 a ha c (List.mem_cons_of_mem _ hc)

theorem rangeInv_split_two {l1 l2 : List (Int × Int)} {b e ab ae : Int}
    (h : rangeInv (l1 ++ (b, e) :: l2))
    (hb : b ≤ ab - 1) (hbe : ab ≤ ae) (he : ae + 1 ≤ e) :
    rangeInv (l1 ++ (b, ab - 1) :: (ae + 1, e) :: l2) := by
  obtain ⟨hval, hgap⟩ := h
  rw [gapSorted, List.pairwise_append, List.pairwise_cons] at hgap
  obtain ⟨h1, ⟨h2a, h2b⟩, h3⟩ := hgap
  constructor
  · intro r hr
    rcases List.mem_append.mp hr with hr | hr
    · exact hval r (List.mem_append.mpr (Or.inl hr))
    · rcases List.mem_cons.mp hr with hr | hr
      · rw [hr]; exact hb
      · rcases List.mem_cons.mp hr with hr | hr
        · rw [hr]; simp only; omega
        · exact hval r (List.mem_append.mpr (Or.inr (List.mem_cons_of_mem _ hr)))
  · rw [gapSorted, List.pairwise_append, List.pairwise_cons, List.pairwise_cons]
    refine ⟨h1, ⟨?_, ?_, h2b⟩, ?_⟩
    · intro c hc
      rcases List.mem_cons.mp hc with hc | hc
      · subst hc; simp only; omega
      · have := h2a c hc
        simp only at this ⊢
        omega
    · intro c hc
      have := h2a c hc
      simp only at this ⊢
      omega
    · intro a ha c hc
      have hae := h3 a ha (b, e) (by simp)
      simp only at hae
      rcases List.mem_cons.mp hc with hc | hc
      · subst hc; simp only; omega
      · rcases List.mem_cons.mp hc with hc | hc
        · subst hc; simp only; omega
        · exact h3 a ha c (List.mem_cons_of_mem _ hc)

/-! The Python sort used by mark_allocated. -/

theorem pairLe_trans (a b c : Int × Int) (hab : pairLe a b = true)
    (hbc : pairLe b c = true) : pairLe a c = true := by
  simp only [pairLe, Bool.or_eq_true, Bool.and_eq_true, decide_eq_true_eq] at hab hbc ⊢
  omega

theorem pairLe_total (a b : Int × Int) : (pairLe a b || pairLe b a) = true := by
  simp only [pairLe, Bool.or_eq_true, Bool.and_eq_true, decide_eq_true_eq]
  omega

instance : IsAntisymm (Int × Int) (fun x y => pairLe x y = true) := by
  constructor
  intro a b hab hba
  simp only [pairLe, Bool.or_eq_true, Bool.and_eq_true, decide_eq_true_eq] at hab hba
  have h1 : a.1 = b.1 := by omega
  have h2 : a.2 = b.2 := by omega
  exact Prod.ext h1 h2

theorem pairwise_pairLe_of_inv {rs : List (Int × Int)} (h : rangeInv rs) :
    rs.Pairwise fun x y => pairLe x y = true := by
  obtain ⟨hval, hgap⟩ := h
  refine List.Pairwise.imp_of_mem ?_ hgap
  intro a b ha _ hr
  have := hval a ha
  simp only [pairLe, Bool.or_eq_true, Bool.and_eq_true, decide_eq_true_eq]
  omega

/-- Identification of the Python sort result: sorting any permutation
of an already lexicographically sorted list returns that list. -/
theorem pySort_eq_of_sorted {L T : List (Int × Int)} (hperm : L.Perm T)
    (hT : T.Pairwise fun x y => pairLe x y = true) : pySortRanges L = T := by
  exact @List.eq_of_perm_of_sorted _ (fun x y => pairLe x y = true) _ _ _
    ((L.mergeSort_perm pairLe).trans hperm)
    (List.sorted_mergeSort pairLe_trans pairLe_total L) hT

theorem check_none_iff {r : Int × Int} {size : Int} :
    check_range_validity r size = none ↔ r.1 ≤ r.2 ∧ 0 ≤ r.1 ∧ r.2 < size := by
  unfold check_range_validity
  split
  · rename_i h
    simp only [reduceCtorEq, false_iff]
    omega
  · split
    · rename_i h1 h2
      simp only [reduceCtorEq, false_iff]
      omega
    · rename_i h1 h2
      simp only [true_iff]
      omega

/-- A successful mark_allocated keeps the free list valid, sorted
ascending by begin, pairwise disjoint and non-touching. -/
theorem mark_preserves_inv (rs : List (Int × Int)) (ab ae size : Int) :
    ∀ rs1, rangeInv rs → mark_allocated rs ab ae size = (rs1, none) → rangeInv rs1 := by
  induction rs, ab, ae, size using mark_allocated.induct with
  | case1 rs ab ae size e hv =>
    intro rs1 hinv h
    rw [mark_eq_err hv] at h
    simp at h
  | case2 rs ab ae size hv hsp =>
    intro rs1 hinv h
    rw [mark_eq_nomatch hv hsp] at h
    simp at h
  | case3 rs ae size l1 b e l2 hlt hv hsp =>
    intro rs1 hinv h
    rw [mark_eq_some hv hsp] at h
    simp only [if_pos rfl, if_true, if_pos hlt, Prod.mk.injEq] at h
    obtain ⟨hval, _⟩ := check_none_iff.mp hv
    simp only at hval
    rw [(splitFirstMatch_eq hsp).1] at hinv
    rw [← h.1]
    exact rangeInv_replace_sub hinv (by omega) (by omega) (by omega)
  | case4 rs size l1 b e l2 hlt hv hsp =>
    intro rs1 hinv h
    rw [mark_eq_some hv hsp] at h
    simp only [if_pos rfl, if_true, if_neg hlt, if_pos rfl, Prod.mk.injEq] at h
    rw [(splitFirstMatch_eq hsp).1] at hinv
    rw [← h.1]
    exact rangeInv_delete hinv
  | case5 rs ae size l1 b e l2 hlt hne hv hsp ih =>
    intro rs1 hinv h
    rw [mark_eq_some hv hsp] at h
    simp only [if_pos rfl, if_true, if_neg hlt, if_neg hne] at h
    rw [(splitFirstMatch_eq hsp).1] at hinv
    exact ih rs1 (rangeInv_delete hinv) h
  | case6 rs ab ae size hv l1 b e l2 hsp hab hbc hne =>
    intro rs1 hinv h
    rw [mark_eq_some hv hsp] at h
    simp only [if_neg hab, if_pos hbc, if_pos hne, Prod.mk.injEq] at h
    obtain ⟨hval, _⟩ := check_none_iff.mp hv
    simp only at hval
    rw [(splitFirstMatch_eq hsp).1] at hinv
    have hT : rangeInv (l1 ++ (b, ab - 1) :: (ae + 1, e) :: l2) :=
      rangeInv_split_two hinv (by omega) (by omega) (by omega)
    have hperm : (l1 ++ (ae + 1, e) :: (b, ab - 1) :: l2).Perm
        (l1 ++ (b, ab - 1) :: (ae + 1, e) :: l2) :=
      List.Perm.append_left l1 (List.Perm.swap (b, ab - 1) (ae + 1, e) l2)
    rw [← h.1, pySort_eq_of_sorted hperm (pairwise_pairLe_of_inv hT)]
    exact hT
  | case7 rs ab ae size hv l1 b e l2 hsp hab hbc hne =>
    intro rs1 hinv h
    rw [mark_eq_some hv hsp] at h
    simp only [if_neg hab, if_pos hbc, if_neg hne, Prod.mk.injEq] at h
    obtain ⟨hval, _⟩ := check_none_iff.mp hv
    simp only at hval
    rw [(splitFirstMatch_eq hsp).1] at hinv
    rw [← h.1]
    exact rangeInv_replace_sub hinv (by omega) (by omega) (by omega)
  | case8 rs ab ae size hv l1 b e l2 hsp hab hbc ih =>
    intro rs1 hinv h
    rw [mark_eq_some hv hsp] at h
    simp only [if_neg hab, if_neg hbc] at h
    have hcm := (splitFirstMatch_eq hsp).2.1
    simp only [caseMatch, Bool.or_eq_true, Bool.and_eq_true, decide_eq_true_eq] at hcm
    rw [(splitFirstMatch_eq hsp).1] at hinv
    exact ih rs1 (rangeInv_replace_sub hinv (by omega) (by omega) (by omega)) h

/-- A free entry containing the whole marked range always triggers
one of the loop guards. -/
theorem contain_caseMatch {ab ae : Int} {r : Int × Int} (h1 : r.1 ≤ ab) (h2 : ae ≤ r.2) :
    caseMatch ab ae r = true := by
  simp only [caseMatch, Bool.or_eq_true, Bool.and_eq_true, decide_eq_true_eq]
  omega

/-- In an invariant-satisfying split free list, every entry after the
matched one begins strictly past its end plus one. -/
theorem inv_l2_gap {l1 l2 : List (Int × Int)} {b e : Int}
    (hinv : rangeInv (l1 ++ (b, e) :: l2)) : ∀ r ∈ l2, e + 1 < r.1 := by
  intro r hr
  have h := (List.pairwise_cons.mp (List.pairwise_append.mp hinv.2).2.1).1 r hr
  simpa using h

/-- After a successful mark_allocated on an invariant-satisfying free
list, no remaining free entry contains the marked range. -/
theorem mark_not_contained (rs : List (Int × Int)) (ab ae size : Int) :
    ∀ rs1, rangeInv rs → mark_allocated rs ab ae size = (rs1, none) →
      ∀ r ∈ rs1, ¬(r.1 ≤ ab ∧ ae ≤ r.2) := by
  induction rs, ab, ae, size using mark_allocated.induct with
  | case1 rs ab ae size e hv =>
    intro rs1 hinv h
    rw [mark_eq_err hv] at h
    simp at h
  | case2 rs ab ae size hv hsp =>
    intro rs1 hinv h
    rw [mark_eq_nomatch hv hsp] at h
    simp at h
  | case3 rs ae size l1 b e l2 hlt hv hsp =>
    intro rs1 hinv h r hr hcon
    rw [mark_eq_some hv hsp] at h
    simp only [if_pos rfl, if_true, if_pos hlt, Prod.mk.injEq] at h
    obtain ⟨hval, _⟩ := check_none_iff.mp hv
    simp only at hval
    obtain ⟨hspl, _, hpre⟩ := splitFirstMatch_eq hsp
    rw [hspl] at hinv
    have hbe : b ≤ e := hinv.1 (b, e) (by simp)
    rw [← h.1] at hr
    rcases List.mem_append.mp hr with hr | hr
    · exact absurd (contain_caseMatch hcon.1 hcon.2) (by simp [hpre r hr])
    · rcases List.mem_cons.mp hr with hr | hr
      · subst hr; simp only at hcon; omega
      · have := inv_l2_gap hinv r hr
        omega
  | case4 rs size l1 b e l2 hlt hv hsp =>
    intro rs1 hinv h r hr hcon
    rw [mark_eq_some hv hsp] at h
    simp only [if_pos rfl, if_true, if_neg hlt, if_pos rfl, Prod.mk.injEq] at h
    obtain ⟨hval, _⟩ := check_none_iff.mp hv
    simp only at hval
    obtain ⟨hspl, _, hpre⟩ := splitFirstMatch_eq hsp
    rw [hspl] at hinv
    have hbe : b ≤ e := hinv.1 (b, e) (by simp)
    rw [← h.1] at hr
    rcases List.mem_append.mp hr with hr | hr
    · exact absurd (contain_caseMatch hcon.1 hcon.2) (by simp [hpre r hr])
    · have := inv_l2_gap hinv r hr
      omega
  | case5 rs ae size l1 b e l2 hlt hne hv hsp ih =>
    intro rs1 hinv h r hr hcon
    rw [mark_eq_some hv hsp] at h
    simp only [if_pos rfl, if_true, if_neg hlt, if_neg hne] at h
    obtain ⟨hspl, _, hpre⟩ := splitFirstMatch_eq hsp
    rw [hspl] at hinv
    have hbe : b ≤ e := hinv.1 (b, e) (by simp)
    exact ih rs1 (rangeInv_delete hinv) h r hr ⟨by omega, hcon.2⟩
  | case6 rs ab ae size hv l1 b e l2 hsp hab hbc hne =>
    intro rs1 hinv h r hr hcon
    rw [mark_eq_some hv hsp] at h
    simp only [if_neg hab, if_pos hbc, if_pos hne, Prod.mk.injEq] at h
    obtain ⟨hval, _⟩ := check_none_iff.mp hv
    simp only at hval
    obtain ⟨hspl, _, hpre⟩ := splitFirstMatch_eq hsp
    rw [hspl] at hinv
    have hT : rangeInv (l1 ++ (b, ab - 1) :: (ae + 1, e) :: l2) :=
      rangeInv_split_two hinv (by omega) (by omega) (by omega)
    have hperm : (l1 ++ (ae + 1, e) :: (b, ab - 1) :: l2).Perm
        (l1 ++ (b, ab - 1) :: (ae + 1, e) :: l2) :=
      List.Perm.append_left l1 (List.Perm.swap (b, ab - 1) (ae + 1, e) l2)
    rw [pySort_eq_of_sorted hperm (pairwise_pairLe_of_inv hT)] at h
    rw [← h.1] at hr
    rcases List.mem_append.mp hr with hr | hr
    · exact absurd (contain_caseMatch hcon.1 hcon.2) (by simp [hpre r hr])
    · rcases List.mem_cons.mp hr with hr | hr
      · subst hr; simp only at hcon; omega
      · rcases List.mem_cons.mp hr with hr | hr
        · subst hr; simp only at hcon; omega
        · have := inv_l2_gap hinv r hr
          omega
  | case7 rs ab ae size hv l1 b e l2 hsp hab hbc hne =>
    intro rs1 hinv h r hr hcon
    rw [mark_eq_some hv hsp] at h
    simp only [if_neg hab, if_pos hbc, if_neg hne, Prod.mk.injEq] at h
    obtain ⟨hval, _⟩ := check_none_iff.mp hv
    simp only at hval
    obtain ⟨hspl, _, hpre⟩ := splitFirstMatch_eq hsp
    rw [hspl] at hinv
    rw [← h.1] at hr
    rcases List.mem_append.mp hr with hr | hr
    · exact absurd (contain_caseMatch hcon.1 hcon.2) (by simp [hpre r hr])
    · rcases List.mem_cons.mp hr with hr | hr
      · subst hr; simp only at hcon; omega
      · have := inv_l2_gap hinv r hr
        omega
  | case8 rs ab ae size hv l1 b e l2 hsp hab hbc ih =>
    intro rs1 hinv h r hr hcon
    rw [mark_eq_some hv hsp] at h
    simp only [if_neg hab, if_neg hbc] at h
    have hcm := (splitFirstMatch_eq hsp).2.1
    simp only [caseMatch, Bool.or_eq_true, Bool.and_eq_true, decide_eq_true_eq] at hcm
    obtain ⟨hspl, _, hpre⟩ := splitFirstMatch_eq hsp
    rw [hspl] at hinv
    have hinv1 : rangeInv (l1 ++ (b, ab - 1) :: l2) :=
      rangeInv_replace_sub hinv (by omega) (by omega) (by omega)
    exact ih rs1 hinv1 h r hr ⟨by omega, hcon.2⟩

/-- The spanning-overlap step of mark_allocated when the marked range
begins strictly inside a free entry and extends past its end: the
entry is truncated to the head left of the range and the remainder is
marked recursively. -/
theorem mark_caseC_step {l1 l2 : List (Int × Int)} {b e ab ae size : Int}
    (hv : check_range_validity (ab, ae) size = none)
    (hpre : ∀ r ∈ l1, caseMatch ab ae r = false)
    (h1 : b < ab) (h2 : ab < e) (h3 : e < ae) :
    mark_allocated (l1 ++ (b, e) :: l2) ab ae size =
      mark_allocated (l1 ++ (b, ab - 1) :: l2) (e + 1) ae size := by
  have hcm : caseMatch ab ae (b, e) = true := by
    simp only [caseMatch, Bool.or_eq_true, Bool.and_eq_true, decide_eq_true_eq]
    omega
  rw [mark_eq_some hv (splitFirstMatch_skip l1 l2 hpre hcm)]
  rw [if_neg (by omega : ¬(ab = b)), if_neg (by omega : ¬(ab > b ∧ ae ≤ e))]

/-! Lemmas about the allocate search loop. -/

theorem allocLoop_cons (sz : Int) (p : Option (Int → Bool)) (rb re : Int)
    (rest : List (Int × Int)) :
    allocLoop sz p ((rb, re) :: rest) =
      if fits sz p (rb, re) then
        some ((if rb + sz - 1 = re then rest else (rb + sz, re) :: rest), (rb, rb + sz - 1))
      else
        match allocLoop sz p rest with
        | some (rs1, r) => some ((rb, re) :: rs1, r)
        | none => none := by
  simp only [allocLoop]
  exact if_congr Iff.rfl rfl rfl

theorem allocLoop_skip_eq (sz : Int) (p : Option (Int → Bool)) (l1 : List (Int × Int))
    (b e : Int) (l2 : List (Int × Int))
    (hpre : ∀ r ∈ l1, ¬ fits sz p r) (hfit : fits sz p (b, e)) :
    allocLoop sz p (l1 ++ (b, e) :: l2) =
      some (l1 ++ (if b + sz - 1 = e then l2 else (b + sz, e) :: l2), (b, b + sz - 1)) := by
  induction l1 with
  | nil =>
    rw [List.nil_append, allocLoop_cons, if_pos hfit]
    simp
  | cons r rest ih =>
    obtain ⟨rb, re⟩ := r
    have hr : ¬ fits sz p (rb, re) := hpre (rb, re) (by simp)
    rw [List.cons_append, allocLoop_cons, if_neg hr,
      ih fun x hx => hpre x (by simp [hx])]
    rfl

theorem allocLoop_none_iff (sz : Int) (p : Option (Int → Bool)) (rs : List (Int × Int)) :
    allocLoop sz p rs = none ↔ ∀ r ∈ rs, ¬ fits sz p r := by
  induction rs with
  | nil => simp [allocLoop]
  | cons r rest ih =>
    obtain ⟨rb, re⟩ := r
    rw [allocLoop_cons]
    by_cases hr : fits sz p (rb, re)
    · rw [if_pos hr]
      simp only [reduceCtorEq, false_iff, not_forall]
      exact ⟨(rb, re), by simp, by simpa using hr⟩
    · rw [if_neg hr]
      constructor
      · intro h x hx
        rcases List.mem_cons.mp hx with hx | hx
        · subst hx; exact hr
        · cases hrec : allocLoop sz p rest with
          | none => exact (ih.mp hrec) x hx
          | some v =>
            rw [hrec] at h
            obtain ⟨v1, v2⟩ := v
            simp at h
      · intro h
        have hnone : allocLoop sz p rest = none := ih.mpr fun x hx => h x (by simp [hx])
        rw [hnone]

theorem allocLoop_some_spec {sz : Int} {p : Option (Int → Bool)}
    {rs rs1 : List (Int × Int)} {ab ae : Int}
    (h : allocLoop sz p rs = some (rs1, (ab, ae))) :
    ∃ l1 e l2, rs = l1 ++ (ab, e) :: l2 ∧ (∀ r ∈ l1, ¬ fits sz p r) ∧
      fits sz p (ab, e) ∧ ae = ab + sz - 1 ∧
      rs1 = l1 ++ (if ab + sz - 1 = e then l2 else (ab + sz, e) :: l2) := by
  induction rs generalizing rs1 with
  | nil => simp [allocLoop] at h
  | cons r rest ih =>
    obtain ⟨rb, re⟩ := r
    rw [allocLoop_cons] at h
    by_cases hr : fits sz p (rb, re)
    · rw [if_pos hr] at h
      simp only [Option.some.injEq, Prod.mk.injEq] at h
      obtain ⟨h1, h2, h3⟩ := h
      subst h2; subst h3
      exact ⟨[], re, rest, by simp, by simp, hr, rfl, by simp [← h1]⟩
    · rw [if_neg hr] at h
      cases hrec : allocLoop sz p rest with
      | none => rw [hrec] at h; cases h
      | some v =>
        obtain ⟨v1, v2⟩ := v
        rw [hrec] at h
        simp only [Option.some.injEq, Prod.mk.injEq] at h
        obtain ⟨h1, h2⟩ := h
        obtain ⟨vb, ve⟩ := v2
        simp only [Prod.mk.injEq] at h2
        rw [show vb = ab from h2.1, show ve = ae from h2.2] at hrec
        obtain ⟨l1, e, l2, e1, e2, e3, e4, e5⟩ := ih hrec
        refine ⟨(rb, re) :: l1, e, l2, by simp [e1], ?_, e3, e4, by simp [← h1, e5]⟩
        intro x hx
        rcases List.mem_cons.mp hx with hx | hx
        · subst hx; exact hr
        · exact e2 x hx

/-! Unfolding and classification lemmas for allocate. -/

theorem sizeMismatch_iff {data : Option (List Nat)} {size : Option Int} :
    sizeMismatch data size = true ↔
      ∃ d s, data = some d ∧ size = some s ∧ s ≠ (d.length : Int) := by
  cases data with
  | none => simp [sizeMismatch]
  | some d =>
    cases size with
    | none => simp [sizeMismatch]
    | some s => simp [sizeMismatch]

theorem allocate_invalid_of (st : AllocatableBlock) (data : Option (List Nat))
    (size : Option Int) (p : Option (Int → Bool))
    (h : (data = none ∧ size = none) ∨ sizeMismatch data size = true ∨
      effSize data size ≤ 0) :
    allocate st data size p = (st, .error .invalidArgument) := by
  unfold allocate
  by_cases hA : data = none ∧ size = none
  · rw [if_pos hA]
  · rw [if_neg hA]
    by_cases hB : sizeMismatch data size = true
    · rw [if_pos hB]
    · rw [if_neg hB]
      have hC : effSize data size ≤ 0 := by tauto
      rw [if_pos hC]

theorem allocate_eq_of_valid (st : AllocatableBlock) (data : Option (List Nat))
    (size : Option Int) (p : Option (Int → Bool))
    (hA : ¬(data = none ∧ size = none)) (hB : sizeMismatch data size = false)
    (hC : ¬ effSize data size ≤ 0) :
    allocate st data size p = allocateCore st data (effSize data size) p := by
  unfold allocate
  rw [if_neg hA, if_neg (by simp [hB]), if_neg hC]

theorem setslice_error_kind {blk : Block} {start stop : Int} {d : List Nat} {e : Err}
    (hlen : (d.length : Int) = stop - start) (hpos : start < stop)
    (h : Block.setslice blk start stop d = .error e) :
    e = .outOfBounds ∨ e = .overflowError := by
  unfold Block.setslice at h
  rw [if_neg (by omega : ¬ start > stop)] at h
  by_cases h2 : start < 0 ∨ stop - 1 ≥ blk.size
  · rw [if_pos h2] at h
    exact Or.inl (Except.error.inj h).symm
  · rw [if_neg h2, if_neg (by omega : ¬ (d.length : Int) ≠ stop - start),
      if_neg (by omega : ¬ stop - start = 0)] at h
    by_cases h3 : d.any (fun v => decide (v > 0xff)) = true
    · rw [if_pos h3] at h
      exact Or.inr (Except.error.inj h).symm
    · rw [if_neg h3] at h
      cases h

/-- In the valid-argument regime, the effective size and the length
of given data agree. -/
theorem effSize_data_length {d : List Nat} {data : Option (List Nat)} {size : Option Int}
    (hd : data = some d) (hB : sizeMismatch data size = false) :
    effSize data size = (d.length : Int) := by
  subst hd
  cases size with
  | none => rfl
  | some s =>
    simp only [sizeMismatch, decide_eq_true_eq, decide_eq_false_iff_not, not_not] at hB
    simpa [effSize] using hB

theorem allocate_valid_err {st : AllocatableBlock} {data : Option (List Nat)}
    {size : Option Int} {p : Option (Int → Bool)} {e : Err}
    (hA : ¬(data = none ∧ size = none)) (hB : sizeMismatch data size = false)
    (hC : ¬ effSize data size ≤ 0)
    (h : (allocate st data size p).2 = .error e) :
    (e = .notEnoughUnallocatedSpace ∧ allocate st data size p = (st, .error e) ∧
      ∀ r ∈ st.unallocated_ranges, ¬ fits (effSize data size) p r) ∨
    e = .outOfBounds ∨ e = .overflowError := by
  rw [allocate_eq_of_valid st data size p hA hB hC] at h ⊢
  unfold allocateCore at h ⊢
  cases hloop : allocLoop (effSize data size) p st.unallocated_ranges with
  | none =>
    left
    rw [hloop] at h
    have h1 : (Except.error Err.notEnoughUnallocatedSpace : Except Err Int) = .error e := h
    have he : Err.notEnoughUnallocatedSpace = e := Except.error.inj h1
    refine ⟨he.symm, ?_, (allocLoop_none_iff _ _ _).mp hloop⟩
    rw [← he]
  | some v =>
    obtain ⟨rs1, ab, ae⟩ := v
    rw [hloop] at h
    cases hd : data with
    | none =>
      subst hd
      simp at h
    | some d =>
      subst hd
      have h2 : (match st.block.setslice ab (ae + 1) d with
          | Except.error e1 =>
            ((⟨st.block, rs1⟩ : AllocatableBlock), (Except.error e1 : Except Err Int))
          | Except.ok blk =>
            ((⟨blk, rs1⟩ : AllocatableBlock), Except.ok ab)).2 = Except.error e := h
      clear h
      cases hss : st.block.setslice ab (ae + 1) d with
      | ok blk =>
        rw [hss] at h2
        simp at h2
      | error e1 =>
        rw [hss] at h2
        have h1 : (Except.error e1 : Except Err Int) = .error e := h2
        have he : e1 = e := Except.error.inj h1
        subst he
        obtain ⟨l1x, ex, l2x, _, _, hfit, hae, _⟩ := allocLoop_some_spec hloop
        have hlen : (d.length : Int) = (ae + 1) - ab := by
          rw [hae, ← effSize_data_length rfl hB]
          ring
        exact Or.inr (setslice_error_kind hlen (by omega) hss)

theorem allocate_notEnough_of_nofit {st : AllocatableBlock} {data : Option (List Nat)}
    {size : Option Int} {p : Option (Int → Bool)}
    (hA : ¬(data = none ∧ size = none)) (hB : sizeMismatch data size = false)
    (hC : ¬ effSize data size ≤ 0)
    (hno : ∀ r ∈ st.unallocated_ranges, ¬ fits (effSize data size) p r) :
    allocate st data size p = (st, .error .notEnoughUnallocatedSpace) := by
  rw [allocate_eq_of_valid st data size p hA hB hC]
  unfold allocateCore
  rw [(allocLoop_none_iff _ _ _).mpr hno]

/-! Claim theorems. -/

/-- Claim C1: on a free list sorted ascending by begin, allocate with
requested size N and an optional placement predicate selects the
first free range whose length is at least N and whose begin passes
the predicate, shrinks it from the front (removing it when consumed
exactly), and returns its original begin as the offset; any later
entry, however tightly it would fit, is never selected. -/
theorem allocate_first_fit (st : AllocatableBlock) (N : Int) (p : Option (Int → Bool))
    (l1 l2 : List (Int × Int)) (b e : Int)
    (_hsorted : st.unallocated_ranges.Sorted fun x y => x.1 ≤ y.1)
    (hsplit : st.unallocated_ranges = l1 ++ (b, e) :: l2)
    (hN : 0 < N)
    (hskip : ∀ r ∈ l1, ¬ fits N p r)
    (hfit : fits N p (b, e)) :
    allocate st none (some N) p =
      ({ st with unallocated_ranges :=
        l1 ++ (if b + N - 1 = e then l2 else (b + N, e) :: l2) }, .ok b) := by
  have hA : ¬((none : Option (List Nat)) = none ∧ (some N : Option Int) = none) := by simp
  have hB : sizeMismatch none (some N) = false := rfl
  have heff : effSize none (some N) = N := rfl
  have hC : ¬ effSize none (some N) ≤ 0 := by rw [heff]; omega
  rw [allocate_eq_of_valid st none (some N) p hA hB hC]
  unfold allocateCore
  rw [heff, hsplit, allocLoop_skip_eq N p l1 b e l2 hskip hfit]

theorem allocate_first_fit_witness :
    allocate ⟨⟨[], 0⟩, [(0, 1), (10, 30), (40, 41)]⟩ none (some 2)
        (some fun x => decide (5 ≤ x)) =
      (⟨⟨[], 0⟩, [(0, 1), (12, 30), (40, 41)]⟩, .ok 10) := by
  have h := allocate_first_fit ⟨⟨[], 0⟩, [(0, 1), (10, 30), (40, 41)]⟩ 2
      (some fun x => decide (5 ≤ x)) [(0, 1)] [(40, 41)] 10 30
      (by decide) rfl (by norm_num) (by decide) (by decide)
  norm_num at h
  exact h

/-- Claim C2 (counterexample): with free ranges (3,5) and (6,20), the
requested range (5,10) is covered byte-for-byte by the union of the
free entries — nothing in it is allocated — and it overlaps entry
(3,5) while spanning past that entry's end, yet mark_allocated raises
CouldNotAllocateError and splits nothing, because the spanning guard
demands that the range begin strictly inside the entry. -/
theorem mark_allocated_cover_cex :
    mark_allocated [(3, 5), (6, 20)] 5 10 30 =
      ([(3, 5), (6, 20)], some .couldNotAllocate) ∧
    (∀ j : Int, 5 ≤ j → j ≤ 10 → (3 ≤ j ∧ j ≤ 5) ∨ (6 ≤ j ∧ j ≤ 20)) := by
  refine ⟨mark_eq_nomatch (by decide) (by decide), ?_⟩
  intro j h1 h2
  omega

/-- Claim C2 (amended): when the marked range begins strictly inside
a free entry (entry begin < range begin < entry end) and spans past
the entry's end, the head of the entry is split off and the remainder
is marked recursively against the other entries; and mark_allocated
raises CouldNotAllocateError exactly at a recursion step in which no
free entry satisfies any of the code's three overlap guards — in
particular, a range that begins exactly at a free entry's last byte
while extending past it fails even when it is entirely free. -/
theorem mark_allocated_overlap_amended :
    (∀ (l1 l2 : List (Int × Int)) (b e ab ae size : Int),
      check_range_validity (ab, ae) size = none →
      (∀ r ∈ l1, caseMatch ab ae r = false) →
      b < ab → ab < e → e < ae →
      mark_allocated (l1 ++ (b, e) :: l2) ab ae size =
        mark_allocated (l1 ++ (b, ab - 1) :: l2) (e + 1) ae size) ∧
    (∀ (rs : List (Int × Int)) (ab ae size : Int),
      check_range_validity (ab, ae) size = none →
      (∀ r ∈ rs, caseMatch ab ae r = false) →
      mark_allocated rs ab ae size = (rs, some .couldNotAllocate)) :=
  ⟨fun _ _ _ _ _ _ _ hv hpre h1 h2 h3 => mark_caseC_step hv hpre h1 h2 h3,
   fun _ _ _ _ hv hall => mark_eq_nomatch hv (splitFirstMatch_none_of_all hall)⟩

theorem mark_allocated_overlap_amended_witness :
    mark_allocated [(0, 10)] 5 20 30 = mark_allocated [(0, 4)] 11 20 30 ∧
    mark_allocated [(0, 4)] 11 20 30 = ([(0, 4)], some .couldNotAllocate) := by
  constructor
  · have h := mark_allocated_overlap_amended.1 [] [] 0 10 5 20 30
      (by decide) (by simp) (by norm_num) (by norm_num) (by norm_num)
    simpa using h
  · exact mark_allocated_overlap_amended.2 [(0, 4)] 11 20 30 (by decide) (by decide)

/-- Claim C6 (code evaluated at the failing input): on a two-byte
block, a single-byte read at offset -1 does not raise
OutOfBoundsError but silently returns the last byte, and a
single-byte write of a valid byte value at offset -1 silently
overwrites the last byte, while offset 2 does raise OutOfBoundsError:
the source checks only key >= size and lets Python negative indexing
through. -/
theorem negative_offset_silent_access :
    Block.getitem ⟨[7, 9], 2⟩ (-1) = .ok 9 ∧
    Block.setitem ⟨[7, 9], 2⟩ (-1) 5 = .ok ⟨[7, 5], 2⟩ ∧
    Block.getitem ⟨[7, 9], 2⟩ 2 = .error .outOfBounds := by
  refine ⟨by decide, by decide, by decide⟩

/-- Claim C7: allocate raises InvalidArgumentError exactly when
neither data nor size is given, or both are given and disagree, or
the effective size is nonpositive; and with valid arguments it raises
NotEnoughUnallocatedSpaceError exactly when no free range of
sufficient length whose begin passes the placement predicate
exists. -/
theorem allocate_error_iff (st : AllocatableBlock) (data : Option (List Nat))
    (size : Option Int) (p : Option (Int → Bool)) :
    ((allocate st data size p).2 = .error .invalidArgument ↔
      ((data = none ∧ size = none) ∨
        (∃ d s, data = some d ∧ size = some s ∧ s ≠ (d.length : Int)) ∨
        effSize data size ≤ 0)) ∧
    (¬((data = none ∧ size = none) ∨
        (∃ d s, data = some d ∧ size = some s ∧ s ≠ (d.length : Int)) ∨
        effSize data size ≤ 0) →
      ((allocate st data size p).2 = .error .notEnoughUnallocatedSpace ↔
        ∀ r ∈ st.unallocated_ranges, ¬ fits (effSize data size) p r)) := by
  by_cases hbad : (data = none ∧ size = none) ∨ sizeMismatch data size = true ∨
      effSize data size ≤ 0
  · have heq := allocate_invalid_of st data size p hbad
    have hbad2 : (data = none ∧ size = none) ∨
        (∃ d s, data = some d ∧ size = some s ∧ s ≠ (d.length : Int)) ∨
        effSize data size ≤ 0 := by
      rcases hbad with h | h | h
      · exact Or.inl h
      · exact Or.inr (Or.inl (sizeMismatch_iff.mp h))
      · exact Or.inr (Or.inr h)
    constructor
    · rw [heq]
      simp only [true_iff]
      exact hbad2
    · intro hn
      exact absurd hbad2 hn
  · have hA : ¬(data = none ∧ size = none) := fun hx => hbad (Or.inl hx)
    have hBm : ¬ sizeMismatch data size = true := fun hx => hbad (Or.inr (Or.inl hx))
    have hC : ¬ effSize data size ≤ 0 := fun hx => hbad (Or.inr (Or.inr hx))
    have hB : sizeMismatch data size = false := by
      cases hx : sizeMismatch data size with
      | false => rfl
      | true => exact absurd hx hBm
    have hnotbad : ¬((data = none ∧ size = none) ∨
        (∃ d s, data = some d ∧ size = some s ∧ s ≠ (d.length : Int)) ∨
        effSize data size ≤ 0) := by
      intro hcon
      rcases hcon with h | h | h
      · exact hA h
      · exact hBm (sizeMismatch_iff.mpr h)
      · exact hC h
    constructor
    · simp only [hnotbad, iff_false]
      intro h
      rcases allocate_valid_err hA hB hC h with ⟨h1, _, _⟩ | h1 | h1 <;> cases h1
    · intro _
      constructor
      · intro h
        rcases allocate_valid_err hA hB hC h with ⟨_, _, h3⟩ | h1 | h1
        · exact h3
        · cases h1
        · cases h1
      · intro hno
        rw [allocate_notEnough_of_nofit hA hB hC hno]

theorem allocate_error_iff_witness :
    (allocate ⟨⟨[], 0⟩, []⟩ none none none).2 = .error .invalidArgument ∧
    (allocate ⟨⟨[], 0⟩, [(0, 3)]⟩ none (some 10) none).2 =
      .error .notEnoughUnallocatedSpace := by
  constructor
  · exact (allocate_error_iff ⟨⟨[], 0⟩, []⟩ none none none).1.mpr (Or.inl ⟨rfl, rfl⟩)
  · refine ((allocate_error_iff ⟨⟨[], 0⟩, [(0, 3)]⟩ none (some 10) none).2 ?_).mpr ?_
    · intro hcon
      rcases hcon with ⟨_, h⟩ | ⟨d, s, h, _⟩ | h
      · cases h
      · cases h
      · rw [show effSize none (some 10) = 10 from rfl] at h
        omega
    · intro r hr hf
      simp only [List.mem_singleton] at hr
      subst hr
      have := hf.1
      rw [show effSize none (some 10) = 10 from rfl] at this
      simp only at this
      omega

/-- Claim C10: whenever allocate raises InvalidArgumentError or
NotEnoughUnallocatedSpaceError, the allocator state — free list and
buffer alike — is exactly the state before the call; mark_allocated,
in contrast, can mutate the free list and then raise
CouldNotAllocateError, as the concrete run in the second conjunct
shows. -/
theorem allocate_atomic_on_failure :
    (∀ (st : AllocatableBlock) (data : Option (List Nat)) (size : Option Int)
        (p : Option (Int → Bool)) (e : Err),
      (allocate st data size p).2 = .error e →
      e = .invalidArgument ∨ e = .notEnoughUnallocatedSpace →
      (allocate st data size p).1 = st) ∧
    (mark_allocated [(0, 10)] 5 20 30 = ([(0, 4)], some .couldNotAllocate) ∧
      ([((0 : Int), (4 : Int))] : List (Int × Int)) ≠ [(0, 10)]) := by
  constructor
  · intro st data size p e h he
    by_cases hbad : (data = none ∧ size = none) ∨ sizeMismatch data size = true ∨
        effSize data size ≤ 0
    · rw [allocate_invalid_of st data size p hbad]
    · have hA : ¬(data = none ∧ size = none) := fun hx => hbad (Or.inl hx)
      have hBm : ¬ sizeMismatch data size = true := fun hx => hbad (Or.inr (Or.inl hx))
      have hC : ¬ effSize data size ≤ 0 := fun hx => hbad (Or.inr (Or.inr hx))
      have hB : sizeMismatch data size = false := by
        cases hx : sizeMismatch data size with
        | false => rfl
        | true => exact absurd hx hBm
      rcases allocate_valid_err hA hB hC h with ⟨_, h2, _⟩ | h1 | h1
      · rw [h2]
      · subst h1
        rcases he with he | he <;> cases he
      · subst h1
        rcases he with he | he <;> cases he
  · constructor
    · have step := @mark_caseC_step [] [] 0 10 5 20 30
        (by decide) (by simp) (by norm_num) (by norm_num) (by norm_num)
      simp only [List.nil_append] at step
      rw [step]
      exact mark_eq_nomatch (by decide) (by decide)
    · decide

theorem allocate_atomic_on_failure_witness :
    (allocate ⟨⟨[], 0⟩, []⟩ none (some 5) none).2 =
      .error .notEnoughUnallocatedSpace ∧
    (allocate ⟨⟨[], 0⟩, []⟩ none (some 5) none).1 = ⟨⟨[], 0⟩, []⟩ := by
  have hres : (allocate ⟨⟨[], 0⟩, []⟩ none (some 5) none).2 =
      .error .notEnoughUnallocatedSpace := by decide
  exact ⟨hres,
    allocate_atomic_on_failure.1 ⟨⟨[], 0⟩, []⟩ none (some 5) none _ hres (Or.inr rfl)⟩

/-- A successful allocate obtained its new free list from the search
loop, with a positive effective size. -/
theorem allocate_ok_ranges {st st1 : AllocatableBlock} {data : Option (List Nat)}
    {size : Option Int} {p : Option (Int → Bool)} {off : Int}
    (h : allocate st data size p = (st1, .ok off)) :
    ∃ rs1 ab ae,
      allocLoop (effSize data size) p st.unallocated_ranges = some (rs1, (ab, ae)) ∧
      st1.unallocated_ranges = rs1 ∧ ¬ effSize data size ≤ 0 := by
  by_cases hbad : (data = none ∧ size = none) ∨ sizeMismatch data size = true ∨
      effSize data size ≤ 0
  · rw [allocate_invalid_of st data size p hbad] at h
    have := congrArg Prod.snd h
    simp at this
  · have hA : ¬(data = none ∧ size = none) := fun hx => hbad (Or.inl hx)
    have hBm : ¬ sizeMismatch data size = true := fun hx => hbad (Or.inr (Or.inl hx))
    have hC : ¬ effSize data size ≤ 0 := fun hx => hbad (Or.inr (Or.inr hx))
    have hB : sizeMismatch data size = false := by
      cases hx : sizeMismatch data size with
      | false => rfl
      | true => exact absurd hx hBm
    rw [allocate_eq_of_valid st data size p hA hB hC] at h
    unfold allocateCore at h
    cases hloop : allocLoop (effSize data size) p st.unallocated_ranges with
    | none =>
      rw [hloop] at h
      have := congrArg Prod.snd h
      simp at this
    | some v =>
      obtain ⟨rs1, ab, ae⟩ := v
      rw [hloop] at h
      refine ⟨rs1, ab, ae, rfl, ?_, hC⟩
      cases hd : data with
      | none =>
        subst hd
        have := congrArg Prod.fst h
        simp only at this
        rw [← this]
      | some d =>
        subst hd
        have h2 : (match st.block.setslice ab (ae + 1) d with
            | Except.error e1 =>
              ((⟨st.block, rs1⟩ : AllocatableBlock), (Except.error e1 : Except Err Int))
            | Except.ok blk =>
              ((⟨blk, rs1⟩ : AllocatableBlock), Except.ok ab)) = (st1, .ok off) := h
        clear h
        cases hss : st.block.setslice ab (ae + 1) d with
        | ok blk =>
          rw [hss] at h2
          have := congrArg Prod.fst h2
          simp only at this
          rw [← this]
        | error e1 =>
          rw [hss] at h2
          have := congrArg Prod.snd h2
          simp at this

/-- The search loop preserves the free-range invariant when the
requested size is positive. -/
theorem allocLoop_preserves_inv {sz : Int} {p : Option (Int → Bool)}
    {rs rs1 : List (Int × Int)} {ab ae : Int}
    (hsz : 0 < sz) (hinv : rangeInv rs)
    (h : allocLoop sz p rs = some (rs1, (ab, ae))) : rangeInv rs1 := by
  obtain ⟨l1, e, l2, h1, _, hfit, _, h5⟩ := allocLoop_some_spec h
  subst h1
  by_cases hex : ab + sz - 1 = e
  · rw [if_pos hex] at h5
    rw [h5]
    exact rangeInv_delete hinv
  · rw [if_neg hex] at h5
    rw [h5]
    have hlen := hfit.1
    simp only at hlen
    exact rangeInv_replace_sub hinv (by omega) (by omega) (by omega)

/-- Claim C3: starting from a free list that is sorted ascending by
begin and pairwise disjoint with no touching entries, every
successful allocate and every successful mark_allocated leaves the
free list sorted ascending by begin and pairwise disjoint. -/
theorem alloc_mark_preserve_range_inv :
    (∀ (st st1 : AllocatableBlock) (data : Option (List Nat)) (size : Option Int)
        (p : Option (Int → Bool)) (off : Int),
      rangeInv st.unallocated_ranges →
      allocate st data size p = (st1, .ok off) →
      rangeInv st1.unallocated_ranges) ∧
    (∀ (rs rs1 : List (Int × Int)) (ab ae size : Int),
      rangeInv rs → mark_allocated rs ab ae size = (rs1, none) → rangeInv rs1) := by
  constructor
  · intro st st1 data size p off hinv h
    obtain ⟨rs1, ab, ae, hloop, hranges, hC⟩ := allocate_ok_ranges h
    rw [hranges]
    exact allocLoop_preserves_inv (by omega) hinv hloop
  · intro rs rs1 ab ae size hinv h
    exact mark_preserves_inv rs ab ae size rs1 hinv h

theorem alloc_mark_preserve_range_inv_witness :
    rangeInv [(0, 1), (12, 30), (40, 41)] ∧ rangeInv [(0, 1), (4, 10)] := by
  constructor
  · have hal : allocate ⟨⟨[], 0⟩, [(0, 1), (10, 30), (40, 41)]⟩ none (some 2)
        (some fun x => decide (5 ≤ x)) =
        (⟨⟨[], 0⟩, [(0, 1), (12, 30), (40, 41)]⟩, .ok 10) := by decide
    exact alloc_mark_preserve_range_inv.1 _ _ none (some 2)
      (some fun x => decide (5 ≤ x)) 10 (by decide) hal
  · have hm : mark_allocated [(0, 10)] 2 3 30 = ([(0, 1), (4, 10)], none) := by
      rw [@mark_eq_some [(0, 10)] [] [] 2 3 30 0 10 (by decide) (by decide)]
      rw [if_neg (by norm_num : ¬(2 : Int) = 0),
        if_pos (by norm_num : (2 : Int) > 0 ∧ (3 : Int) ≤ 10),
        if_pos (by norm_num : (3 : Int) ≠ 10)]
      norm_num
      have hperm : [((4 : Int), (10 : Int)), (0, 1)].Perm [(0, 1), (4, 10)] :=
        List.Perm.swap (0, 1) (4, 10) []
      rw [pySort_eq_of_sorted hperm (by decide)]
    exact alloc_mark_preserve_range_inv.2 [(0, 10)] _ 2 3 30 (by decide) hm

/-- Claim C4: on a free list satisfying the FreeRangeSet invariant, a
successful mark_allocated of a range followed by is_allocated of the
same range returns true. -/
theorem mark_then_is_allocated (rs rs1 : List (Int × Int)) (ab ae size : Int)
    (hinv : rangeInv rs)
    (h : mark_allocated rs ab ae size = (rs1, none)) :
    is_allocated rs1 size (ab, ae) = .ok true := by
  have hv := mark_ok_validity h
  have hnc := mark_not_contained rs ab ae size rs1 hinv h
  unfold is_allocated is_unallocated
  rw [hv]
  have hany : (rs1.any fun a => decide ((ab, ae).1 ≥ a.1) && decide ((ab, ae).2 ≤ a.2))
      = false := by
    rw [List.any_eq_false]
    intro r hr
    simp only [Bool.and_eq_true, decide_eq_true_eq, not_and]
    intro h1 h2
    exact hnc r hr ⟨h1, h2⟩
  rw [hany]
  rfl

theorem mark_then_is_allocated_witness :
    is_allocated [] 30 (0, 10) = .ok true := by
  have hm : mark_allocated [(0, 10)] 0 10 30 = ([], none) := by
    rw [@mark_eq_some [(0, 10)] [] [] 0 10 30 0 10 (by decide) (by decide)]
    norm_num
  exact mark_then_is_allocated [(0, 10)] [] 0 10 30 (by decide) hm

/-! The little-endian round trip of write_multi and read_multi. -/

/-- The sequence of bytes that the write_multi loop stores: least
significant byte first. -/
def leBytes (v : Int) : Nat → List Nat
  | 0 => []
  | n + 1 => (pyAndFF v).toNat :: leBytes (v >>> (8 : Nat)) n

/-- The value of a little-endian byte list. -/
def leVal : List Nat → Nat
  | [] => 0
  | b :: t => b + 256 * leVal t

theorem pyAndFF_bounds (x : Int) : 0 ≤ pyAndFF x ∧ pyAndFF x ≤ 255 := by
  unfold pyAndFF
  omega

theorem leBytes_length (n : Nat) : ∀ v : Int, (leBytes v n).length = n := by
  induction n with
  | zero => intro v; rfl
  | succ n ih => intro v; simp [leBytes, ih]

theorem leBytes_lt (n : Nat) : ∀ (v : Int), ∀ b ∈ leBytes v n, b < 256 := by
  induction n with
  | zero => intro v b hb; simp [leBytes] at hb
  | succ n ih =>
    intro v b hb
    rcases List.mem_cons.mp hb with hb | hb
    · have := pyAndFF_bounds v
      subst hb
      omega
    · exact ih _ b hb

theorem shiftLeft_lor_eq (x y : Nat) (hy : y < 256) : (x <<< 8) ||| y = 256 * x + y := by
  apply Nat.eq_of_testBit_eq
  intro i
  rw [Nat.testBit_lor, Nat.testBit_shiftLeft,
    show 256 * x + y = 2 ^ 8 * x + y by norm_num,
    Nat.testBit_mul_pow_two_add x (show y < 2 ^ 8 by omega) i]
  by_cases hi : i < 8
  · rw [if_pos hi]
    have h1 : ¬(i ≥ 8) := by omega
    simp [h1]
  · rw [if_neg hi]
    have h8 : i ≥ 8 := by omega
    have h2 : (256 : Nat) ≤ 2 ^ i := by
      calc (256 : Nat) = 2 ^ 8 := by norm_num
      _ ≤ 2 ^ i := Nat.pow_le_pow_right (by norm_num) h8
    have hyb : y.testBit i = false := Nat.testBit_eq_false_of_lt (lt_of_lt_of_le hy h2)
    simp [h8, hyb]

theorem foldl_rev_eq_leVal (l : List Nat) (hl : ∀ b ∈ l, b < 256) :
    l.reverse.foldl (fun a y => (a <<< 8) ||| y) 0 = leVal l := by
  induction l with
  | nil => rfl
  | cons b t ih =>
    rw [List.reverse_cons, List.foldl_append,
      ih fun x hx => hl x (List.mem_cons_of_mem b hx)]
    simp only [List.foldl_cons, List.foldl_nil]
    rw [shiftLeft_lor_eq _ b (hl b (by simp))]
    rw [leVal]
    ring

theorem pyReduce_rev (l : List Nat) (hne : l ≠ []) (hl : ∀ b ∈ l, b < 256) :
    pyReduceShiftOr l.reverse = .ok (leVal l) := by
  cases hrev : l.reverse with
  | nil => exact absurd (by simpa using congrArg List.reverse hrev) hne
  | cons r rx =>
    simp only [pyReduceShiftOr]
    have h0 : (r :: rx).foldl (fun a y => (a <<< 8) ||| y) 0 =
        rx.foldl (fun a y => (a <<< 8) ||| y) r := by
      simp only [List.foldl_cons, Nat.zero_shiftLeft, Nat.zero_or]
    rw [← h0, ← hrev, foldl_rev_eq_leVal l hl]

theorem leVal_leBytes (n : Nat) : ∀ v : Int, 0 ≤ v →
    leVal (leBytes v n) = v.toNat % 2 ^ (8 * n) := by
  induction n with
  | zero =>
    intro v _
    simp [leBytes, leVal, Nat.mod_one]
  | succ n ih =>
    intro v hv
    obtain ⟨m, rfl⟩ := Int.eq_ofNat_of_zero_le hv
    have hshift : ((m : Int) >>> (8 : Nat)) = ((m / 256 : Nat) : Int) := by
      rw [Int.shiftRight_eq_div_pow]
      norm_cast
    have hmod : pyAndFF (m : Int) = ((m % 256 : Nat) : Int) := by
      unfold pyAndFF
      norm_cast
    rw [leBytes, leVal, hmod, hshift, ih _ (by positivity)]
    simp only [Int.toNat_ofNat]
    rw [show 8 * (n + 1) = 8 + 8 * n by ring, pow_add,
      show (2 : Nat) ^ 8 = 256 by norm_num, Nat.mod_mul]

theorem writeMultiLoop_ok (n : Nat) :
    ∀ (blk : Block) (k : Nat) (item : Int),
      blk.size = (blk.data.length : Int) →
      k + n ≤ blk.data.length → 0 ≤ item →
      writeMultiLoop blk (k : Int) item n =
        .ok ⟨blk.data.take k ++ leBytes item n ++ blk.data.drop (k + n), blk.size⟩ := by
  induction n with
  | zero =>
    intro blk k item hwf hb hv
    simp only [writeMultiLoop, leBytes, List.append_nil, Nat.add_zero,
      List.take_append_drop]
  | succ n ih =>
    intro blk k item hwf hb hv
    have hbounds := pyAndFF_bounds item
    have hval : ¬(pyAndFF item < 0 ∨ pyAndFF item > 0xff) := by omega
    have hks : ¬((k : Int) ≥ blk.size) := by
      rw [hwf]
      have : k < blk.data.length := by omega
      exact not_le.mpr (by exact_mod_cast this)
    simp only [writeMultiLoop, Block.setitem]
    rw [if_neg hval, if_neg hks]
    have hset : pyListSet blk.data (k : Int) (pyAndFF item).toNat =
        some (blk.data.set k (pyAndFF item).toNat) := by
      unfold pyListSet
      rw [if_pos (by positivity)]
      rw [if_pos (by exact_mod_cast (show k < blk.data.length by omega))]
      rw [Int.toNat_ofNat]
    rw [hset]
    have hsh : (0 : Int) ≤ item >>> (8 : Nat) := by
      rw [Int.shiftRight_eq_div_pow]
      positivity
    have hrec := ih ⟨blk.data.set k (pyAndFF item).toNat, blk.size⟩ (k + 1)
      (item >>> (8 : Nat)) (by simp [hwf]) (by simp; omega) hsh
    rw [show ((k : Int) + 1) = ((k + 1 : Nat) : Int) by push_cast; ring]
    show writeMultiLoop ⟨blk.data.set k (pyAndFF item).toNat, blk.size⟩
        ((k + 1 : Nat) : Int) (item >>> (8 : Nat)) n = _
    rw [hrec]
    have hklen : k < blk.data.length := by omega
    have hseteq : blk.data.set k (pyAndFF item).toNat =
        blk.data.take k ++ (pyAndFF item).toNat :: blk.data.drop (k + 1) := by
      rw [List.set_eq_take_append_cons_drop, if_pos hklen]
    have htake : (blk.data.set k (pyAndFF item).toNat).take (k + 1) =
        blk.data.take k ++ [(pyAndFF item).toNat] := by
      rw [hseteq, List.take_append_eq_append_take,
        List.take_of_length_le (by simp [List.length_take] <;> omega)]
      congr 1
      have hlen : (blk.data.take k).length = k := by simp [List.length_take] <;> omega
      rw [hlen]
      simp
    have hdrop : (blk.data.set k (pyAndFF item).toNat).drop (k + 1 + n) =
        blk.data.drop (k + (n + 1)) := by
      rw [hseteq, List.drop_append_eq_append_drop,
        List.drop_eq_nil_of_le (by simp [List.length_take] <;> omega)]
      have hlen : (blk.data.take k).length = k := by simp [List.length_take] <;> omega
      rw [hlen, List.nil_append,
        show k + 1 + n - k = n + 1 by omega, List.drop_succ_cons, List.drop_drop]
      congr 1
      omega
    simp only [leBytes]
    rw [htake, hdrop]
    simp [List.append_assoc]

/-- Claim C8: writing a nonnegative integer v as w little-endian
bytes at an in-bounds offset o with write_multi, then reading w bytes
at o with read_multi, returns v reduced modulo 2 to the power 8w. -/
theorem write_read_multi_roundtrip (blk : Block) (o v w : Int)
    (hwf : blk.size = (blk.data.length : Int))
    (ho : 0 ≤ o) (ho2 : o < blk.size) (hw : 0 ≤ w) (hspan : o + w ≤ blk.size)
    (hv : 0 ≤ v) :
    ∃ blk1, blk.write_multi o v w = .ok blk1 ∧
      blk1.read_multi o w = .ok (v.toNat % 2 ^ (8 * w.toNat)) := by
  by_cases hw0 : w = 0
  · subst hw0
    refine ⟨blk, ?_, ?_⟩
    · unfold Block.write_multi
      rw [if_neg (by omega), if_neg (by omega), if_pos rfl]
    · unfold Block.read_multi
      rw [if_neg (by omega), if_pos rfl]
      simp [Nat.mod_one]
  · obtain ⟨k, hk⟩ := Int.eq_ofNat_of_zero_le ho
    obtain ⟨wn, hwn⟩ := Int.eq_ofNat_of_zero_le hw
    have hwpos : 0 < wn := by omega
    have hkw : k + wn ≤ blk.data.length := by
      rw [hwf] at hspan
      exact_mod_cast (by omega : (k : Int) + wn ≤ (blk.data.length : Int))
    have hloop := writeMultiLoop_ok wn blk k v hwf hkw hv
    refine ⟨⟨blk.data.take k ++ leBytes v wn ++ blk.data.drop (k + wn), blk.size⟩, ?_, ?_⟩
    · unfold Block.write_multi
      rw [if_neg (by omega), if_neg (by omega), if_neg hw0, hk, hwn]
      rw [show ((wn : Int)).toNat = wn from Int.toNat_ofNat wn]
      exact hloop
    · unfold Block.read_multi
      have hlen1 : (blk.data.take k ++ leBytes v wn ++ blk.data.drop (k + wn)).length =
          blk.data.length := by
        simp [List.length_take, List.length_drop, leBytes_length]
        omega
      rw [if_neg (by omega), if_neg (by omega),
        if_neg (show ¬(o < 0 ∨ o ≥ blk.size ∨ o + w > blk.size) by omega)]
      have hslice : pySliceList
          (blk.data.take k ++ leBytes v wn ++ blk.data.drop (k + wn)) o (o + w) =
          leBytes v wn := by
        unfold pySliceList
        rw [hk, hwn]
        rw [Int.toNat_ofNat, show (((k : Int) + (wn : Int))).toNat = k + wn by omega]
        have htk : (blk.data.take k).length = k := by simp [List.length_take] <;> omega
        rw [List.append_assoc, List.drop_append_eq_append_drop, htk,
          List.drop_eq_nil_of_le (by rw [htk]), Nat.sub_self, List.drop_zero,
          List.nil_append, List.take_append_eq_append_take, leBytes_length,
          List.take_of_length_le (by rw [leBytes_length]; omega)]
        simp [leBytes_length]
      have hgs : Block.getslice
          ⟨blk.data.take k ++ leBytes v wn ++ blk.data.drop (k + wn), blk.size⟩ o (o + w) =
          .ok ⟨leBytes v wn, ((leBytes v wn).length : Int)⟩ := by
        unfold Block.getslice
        rw [if_neg (show ¬ o > o + w by omega),
          if_neg (show ¬(o < 0 ∨ o + w - 1 ≥ blk.size) by omega)]
        simp only [hslice]
      rw [hgs]
      show pyReduceShiftOr (leBytes v wn).reverse = _
      rw [pyReduce_rev (leBytes v wn)
        (by
          intro hnil
          have hl := leBytes_length wn v
          rw [hnil] at hl
          simp at hl
          omega)
        (leBytes_lt wn v)]
      rw [leVal_leBytes wn v hv, hwn, Int.toNat_ofNat]

theorem write_read_multi_roundtrip_witness :
    ∃ blk1, Block.write_multi ⟨[0, 0, 0], 3⟩ 1 300 2 = .ok blk1 ∧
      blk1.read_multi 1 2 = .ok 300 := by
  have h := write_read_multi_roundtrip ⟨[0, 0, 0], 3⟩ 1 300 2 (by decide) (by norm_num)
    (by norm_num) (by norm_num) (by norm_num) (by norm_num)
  norm_num at h
  exact h

/-! Claim C9: header stripping during console-platform detection. -/

/-- Claim C9: whenever the console-platform detection matches a
headered variant — both unheadered probes report no match and the
headered HiROM probe matches, or it reports no match and the headered
LoROM probe matches — the buffer is stripped as a side effect: the
size attribute drops by exactly 0x200, the first 0x200 bytes are
discarded, and every remaining byte at new offset i equals the
original byte at offset 0x200 + i. -/
theorem headered_detect_strips (blk : Block) (off : Int) (sig : List Nat)
    (h1 : tryCheckVariant blk 0xffdc 0xffde 0xffdd 0xffdf off sig = .ok false)
    (h2 : tryCheckVariant blk 0x7fdc 0x7fde 0x7fdd 0x7fdf off sig = .ok false)
    (h34 : tryCheckVariant blk 0x101dc 0x101de 0x101dd 0x101df (off + 0x200) sig =
        .ok true ∨
      (tryCheckVariant blk 0x101dc 0x101de 0x101dd 0x101df (off + 0x200) sig =
        .ok false ∧
       tryCheckVariant blk 0x81dc 0x81de 0x81dd 0x81df (off + 0x200) sig = .ok true)) :
    snesDetect blk off sig = .ok (some (stripHeader blk)) ∧
    (stripHeader blk).size = blk.size - 0x200 ∧
    (stripHeader blk).data.length = blk.data.length - 0x200 ∧
    ∀ i : Nat, (stripHeader blk).data[i]? = blk.data[0x200 + i]? := by
  refine ⟨?_, rfl, by simp [stripHeader], ?_⟩
  · rcases h34 with h3 | ⟨h3, h4⟩
    · simp only [snesDetect, h1, h2, h3]
    · simp only [snesDetect, h1, h2, h3, h4]
  · intro i
    simp [stripHeader, List.getElem?_drop]

/-! Symbolic evaluation lemmas for the detection probes, used to run
the detector on a concrete buffer without unfolding the buffer. -/

theorem getitem_oob {blk : Block} {c : Int} (h : c ≥ blk.size) :
    blk.getitem c = .error .outOfBounds := by
  unfold Block.getitem
  rw [if_pos h]

theorem getitem_eq_of_getElem {blk : Block} {c : Int} {v : Nat}
    (h0 : 0 ≤ c) (hc : c < blk.size) (hl : blk.data[c.toNat]? = some v) :
    blk.getitem c = .ok v := by
  unfold Block.getitem pyListGet
  rw [if_neg (by omega), if_pos h0, hl]

theorem tryGo_err1 {blk : Block} {c1 c2 c3 c4 so : Int} {sig : List Nat} {e : Err}
    (h : blk.getitem c1 = .error e) :
    tryGo blk c1 c2 c3 c4 so sig = .error e := by
  unfold tryGo
  rw [h]

theorem tryGo_pair1_ne {blk : Block} {c1 c2 c3 c4 so : Int} {sig : List Nat}
    {v1 v2 : Nat} (h1 : blk.getitem c1 = .ok v1) (h2 : blk.getitem c2 = .ok v2)
    (hne : pyComplByte v1 ≠ (v2 : Int)) :
    tryGo blk c1 c2 c3 c4 so sig = .ok false := by
  unfold tryGo
  rw [h1, h2]
  show (if pyComplByte v1 ≠ (v2 : Int) then (Except.ok false : Except Err Bool)
    else match blk.getitem c3 with
      | .error e => .error e
      | .ok v3 =>
        match blk.getitem c4 with
        | .error e => .error e
        | .ok v4 =>
          if pyComplByte v3 ≠ (v4 : Int) then .ok false
          else
            match blk.getslice so (so + (sig.length : Int)) with
            | .error e => .error e
            | .ok sl => .ok (decide (sl.to_list = sig))) = .ok false
  rw [if_pos hne]

theorem tryGo_pairs_sig {blk : Block} {c1 c2 c3 c4 so : Int} {sig : List Nat}
    {v1 v2 v3 v4 : Nat} {sl : Block}
    (h1 : blk.getitem c1 = .ok v1) (h2 : blk.getitem c2 = .ok v2)
    (h3 : blk.getitem c3 = .ok v3) (h4 : blk.getitem c4 = .ok v4)
    (he1 : ¬ pyComplByte v1 ≠ (v2 : Int)) (he2 : ¬ pyComplByte v3 ≠ (v4 : Int))
    (hsl : blk.getslice so (so + (sig.length : Int)) = .ok sl) :
    tryGo blk c1 c2 c3 c4 so sig = .ok (decide (sl.to_list = sig)) := by
  unfold tryGo
  rw [h1, h2]
  show (if pyComplByte v1 ≠ (v2 : Int) then (Except.ok false : Except Err Bool)
    else match blk.getitem c3 with
      | .error e => .error e
      | .ok v3 =>
        match blk.getitem c4 with
        | .error e => .error e
        | .ok v4 =>
          if pyComplByte v3 ≠ (v4 : Int) then .ok false
          else
            match blk.getslice so (so + (sig.length : Int)) with
            | .error e => .error e
            | .ok sl => .ok (decide (sl.to_list = sig))) = _
  rw [if_neg he1, h3, h4]
  show (if pyComplByte v3 ≠ (v4 : Int) then (Except.ok false : Except Err Bool)
    else match blk.getslice so (so + (sig.length : Int)) with
      | .error e => .error e
      | .ok sl => .ok (decide (sl.to_list = sig))) = _
  rw [if_neg he2, hsl]

theorem tryCheck_of_go_ok {blk : Block} {c1 c2 c3 c4 so : Int} {sig : List Nat}
    {b : Bool} (h : tryGo blk c1 c2 c3 c4 so sig = .ok b) :
    tryCheckVariant blk c1 c2 c3 c4 so sig = .ok b := by
  unfold tryCheckVariant
  rw [h]

theorem tryCheck_of_go_oob {blk : Block} {c1 c2 c3 c4 so : Int} {sig : List Nat}
    (h : tryGo blk c1 c2 c3 c4 so sig = .error .outOfBounds) :
    tryCheckVariant blk c1 c2 c3 c4 so sig = .ok false := by
  unfold tryCheckVariant
  rw [h]

theorem headered_detect_strips_witness :
    snesDetect ⟨List.replicate 0x81dc 0 ++ [0, 0, 0xff, 0xff], 0x81e0⟩ 0 [] =
      .ok (some (stripHeader ⟨List.replicate 0x81dc 0 ++ [0, 0, 0xff, 0xff], 0x81e0⟩)) ∧
    (stripHeader ⟨List.replicate 0x81dc 0 ++ [0, 0, 0xff, 0xff], 0x81e0⟩).size =
      0x7fe0 := by
  have hgetlow : ∀ j : Nat, j < 0x81dc →
      (List.replicate 0x81dc 0 ++ [0, 0, 0xff, 0xff] : List Nat)[j]? = some 0 := by
    intro j hj
    rw [List.getElem?_append]
    rw [List.length_replicate, if_pos hj, List.getElem?_replicate, if_pos hj]
  have hgethigh : ∀ j : Nat, 0x81dc ≤ j → j < 0x81e0 →
      (List.replicate 0x81dc 0 ++ [0, 0, 0xff, 0xff] : List Nat)[j]? =
        ([0, 0, 0xff, 0xff] : List Nat)[j - 0x81dc]? := by
    intro j hj1 hj2
    rw [List.getElem?_append, List.length_replicate, if_neg (by omega)]
  have gA : Block.getitem ⟨List.replicate 0x81dc 0 ++ [0, 0, 0xff, 0xff], 0x81e0⟩
      0x7fdc = .ok 0 :=
    getitem_eq_of_getElem (by norm_num) (by norm_num) (hgetlow 0x7fdc (by norm_num))
  have gB : Block.getitem ⟨List.replicate 0x81dc 0 ++ [0, 0, 0xff, 0xff], 0x81e0⟩
      0x7fde = .ok 0 :=
    getitem_eq_of_getElem (by norm_num) (by norm_num) (hgetlow 0x7fde (by norm_num))
  have gC : Block.getitem ⟨List.replicate 0x81dc 0 ++ [0, 0, 0xff, 0xff], 0x81e0⟩
      0x81dc = .ok 0 :=
    getitem_eq_of_getElem (by norm_num) (by norm_num)
      ((hgethigh 0x81dc (by norm_num) (by norm_num)).trans (by decide))
  have gD : Block.getitem ⟨List.replicate 0x81dc 0 ++ [0, 0, 0xff, 0xff], 0x81e0⟩
      0x81de = .ok 0xff :=
    getitem_eq_of_getElem (by norm_num) (by norm_num)
      ((hgethigh 0x81de (by norm_num) (by norm_num)).trans (by decide))
  have gE : Block.getitem ⟨List.replicate 0x81dc 0 ++ [0, 0, 0xff, 0xff], 0x81e0⟩
      0x81dd = .ok 0 :=
    getitem_eq_of_getElem (by norm_num) (by norm_num)
      ((hgethigh 0x81dd (by norm_num) (by norm_num)).trans (by decide))
  have gF : Block.getitem ⟨List.replicate 0x81dc 0 ++ [0, 0, 0xff, 0xff], 0x81e0⟩
      0x81df = .ok 0xff :=
    getitem_eq_of_getElem (by norm_num) (by norm_num)
      ((hgethigh 0x81df (by norm_num) (by norm_num)).trans (by decide))
  have hsl : Block.getslice ⟨List.replicate 0x81dc 0 ++ [0, 0, 0xff, 0xff], 0x81e0⟩
      (0 + 0x200) ((0 + 0x200) + ((([] : List Nat)).length : Int)) =
      .ok ⟨[], 0⟩ := by
    unfold Block.getslice pySliceList
    rw [if_neg (by norm_num), if_neg (by norm_num),
      show ((0 : Int) + 0x200 + ((([] : List Nat)).length : Int)).toNat -
        ((0 : Int) + 0x200).toNat = 0 by decide,
      List.take_zero]
    rfl
  have h1 : tryCheckVariant ⟨List.replicate 0x81dc 0 ++ [0, 0, 0xff, 0xff], 0x81e0⟩
      0xffdc 0xffde 0xffdd 0xffdf 0 [] = .ok false :=
    tryCheck_of_go_oob (tryGo_err1 (getitem_oob (by norm_num)))
  have h2 : tryCheckVariant ⟨List.replicate 0x81dc 0 ++ [0, 0, 0xff, 0xff], 0x81e0⟩
      0x7fdc 0x7fde 0x7fdd 0x7fdf 0 [] = .ok false :=
    tryCheck_of_go_ok (tryGo_pair1_ne gA gB (by decide))
  have h3 : tryCheckVariant ⟨List.replicate 0x81dc 0 ++ [0, 0, 0xff, 0xff], 0x81e0⟩
      0x101dc 0x101de 0x101dd 0x101df (0 + 0x200) [] = .ok false :=
    tryCheck_of_go_oob (tryGo_err1 (getitem_oob (by norm_num)))
  have h4 : tryCheckVariant ⟨List.replicate 0x81dc 0 ++ [0, 0, 0xff, 0xff], 0x81e0⟩
      0x81dc 0x81de 0x81dd 0x81df (0 + 0x200) [] = .ok true :=
    tryCheck_of_go_ok (tryGo_pairs_sig gC gD gE gF (by decide) (by decide) hsl)
  have h := headered_detect_strips
    ⟨List.replicate 0x81dc 0 ++ [0, 0, 0xff, 0xff], 0x81e0⟩ 0 [] h1 h2
    (Or.inr ⟨h3, h4⟩)
  refine ⟨h.1, ?_⟩
  rw [h.2.1]
  norm_num

/-! Lemmas for Rom.expand (claim C5). -/

/-- Successful single-byte write: with a valid unsigned-byte value and
an in-range nonnegative key, setitem updates the byte in place. -/
theorem setitem_ok {blk : Block} {k v : Int} (h0 : 0 ≤ k) (hk : k < blk.size)
    (hkl : k < (blk.data.length : Int)) (hv0 : 0 ≤ v) (hv : v ≤ 0xff) :
    blk.setitem k v = .ok ⟨blk.data.set k.toNat v.toNat, blk.size⟩ := by
  unfold Block.setitem pyListSet
  rw [if_neg (by omega), if_neg (by omega), if_pos h0, if_pos hkl]

/-- Pointwise specification of the mirroring loop of Rom.expand: on a
well-formed buffer of unsigned bytes that is long enough, the loop
succeeds and copies the bytes at offsets i..i+n-1 to offsets
0x400000+i..0x400000+i+n-1, leaving every other byte unchanged. -/
theorem expandCopyLoop_ok (n : Nat) : ∀ (blk : Block) (i : Nat),
    sizeOk blk → bytesOk blk → i + n ≤ 0x400000 →
    0x400000 + i + n ≤ blk.data.length →
    ∃ blk1, expandCopyLoop blk i n = .ok blk1 ∧
      blk1.size = blk.size ∧ blk1.data.length = blk.data.length ∧
      ∀ j : Nat, blk1.data[j]? =
        if 0x400000 + i ≤ j ∧ j < 0x400000 + i + n then blk.data[j - 0x400000]?
        else blk.data[j]? := by
  induction n with
  | zero =>
    intro blk i _ _ _ _
    refine ⟨blk, rfl, rfl, rfl, ?_⟩
    intro j
    rw [if_neg (by omega)]
  | succ n ih =>
    intro blk i hs hb hle hlen
    have hs' : blk.size = (blk.data.length : Int) := hs
    have hilen : i < blk.data.length := by omega
    have hv : blk.data[i]? = some blk.data[i] := List.getElem?_eq_getElem hilen
    have hvb : blk.data[i] ≤ 0xff := hb _ (List.getElem_mem hilen)
    have hget : blk.getitem (i : Int) = .ok blk.data[i] :=
      getitem_eq_of_getElem (by omega) (by omega) hv
    have hset : Block.setitem blk ((0x400000 : Int) + (i : Int)) (blk.data[i] : Int) =
        .ok ⟨blk.data.set (0x400000 + i) blk.data[i], blk.size⟩ := by
      have h1 : (((0x400000 : Int)) + (i : Int)).toNat = 0x400000 + i := by omega
      rw [setitem_ok (by omega) (by omega) (by omega) (by omega)
        (by exact_mod_cast hvb), h1, Int.toNat_natCast]
    have hstep : expandCopyLoop blk i (n + 1) =
        expandCopyLoop ⟨blk.data.set (0x400000 + i) blk.data[i], blk.size⟩ (i + 1) n := by
      show (match blk.getitem (i : Int) with
        | .error e => (.error e : Except Err Block)
        | .ok v =>
          match Block.setitem blk ((0x400000 : Int) + (i : Int)) (v : Int) with
          | .error e => .error e
          | .ok blk1 => expandCopyLoop blk1 (i + 1) n) = _
      rw [hget]
      show (match Block.setitem blk ((0x400000 : Int) + (i : Int)) (blk.data[i] : Int) with
        | .error e => (.error e : Except Err Block)
        | .ok blk1 => expandCopyLoop blk1 (i + 1) n) = _
      rw [hset]
    obtain ⟨blk1, hrun, hsz1, hlen1, hpt⟩ :=
      ih ⟨blk.data.set (0x400000 + i) blk.data[i], blk.size⟩ (i + 1)
        (by show blk.size = ((blk.data.set (0x400000 + i) blk.data[i]).length : Int)
            rw [List.length_set]; omega)
        (by intro w hw
            rcases List.mem_or_eq_of_mem_set hw with h | h
            · exact hb w h
            · omega)
        (by omega)
        (by show 0x400000 + (i + 1) + n ≤ (blk.data.set (0x400000 + i) blk.data[i]).length
            rw [List.length_set]; omega)
    refine ⟨blk1, hstep.trans hrun, hsz1, ?_, ?_⟩
    · rw [hlen1]
      show (blk.data.set (0x400000 + i) blk.data[i]).length = blk.data.length
      rw [List.length_set]
    · intro j
      rw [hpt j]
      by_cases hA : 0x400000 + (i + 1) ≤ j ∧ j < 0x400000 + (i + 1) + n
      · rw [if_pos hA, if_pos (show 0x400000 + i ≤ j ∧ j < 0x400000 + i + (n + 1) by omega)]
        show (blk.data.set (0x400000 + i) blk.data[i])[j - 0x400000]? = _
        rw [List.getElem?_set, if_neg (by omega)]
      · rw [if_neg hA]
        by_cases hB : j = 0x400000 + i
        · rw [if_pos (show 0x400000 + i ≤ j ∧ j < 0x400000 + i + (n + 1) by omega)]
          show (blk.data.set (0x400000 + i) blk.data[i])[j]? = _
          rw [List.getElem?_set, if_pos (by omega), if_pos (by omega),
            show j - 0x400000 = i by omega, hv]
        · rw [if_neg (show ¬(0x400000 + i ≤ j ∧ j < 0x400000 + i + (n + 1)) by omega)]
          show (blk.data.set (0x400000 + i) blk.data[i])[j]? = _
          rw [List.getElem?_set, if_neg (by omega)]

/-- Full characterization of Rom.expand to 0x600000 on an
Earthbound-type buffer of size 0x300000: the buffer is padded with
0x100000 zeros, the control bytes at 0xffd5 and 0xffd7 are patched,
0x200000 more zeros are appended, and the patched bytes at offsets
0x8000..0xffff are mirrored to 0x408000..0x40ffff. -/
theorem expand_eb_spec (r : Rom) (ht : r.type = "Earthbound")
    (hs : sizeOk r.block) (hb : bytesOk r.block) (hsz : r.block.size = 0x300000) :
    ∃ r1, Rom.expand r 0x600000 = .ok r1 ∧ r1.type = r.type ∧
      r1.block.size = 0x600000 ∧ r1.block.data.length = 0x600000 ∧
      ∀ j : Nat, r1.block.data[j]? =
        if 0x408000 ≤ j ∧ j < 0x410000 then
          (((r.block.data ++ List.replicate 0x100000 0).set 0xffd5 0x25).set 0xffd7
            0x0d)[j - 0x400000]?
        else
          ((((r.block.data ++ List.replicate 0x100000 0).set 0xffd5 0x25).set 0xffd7
            0x0d) ++ List.replicate 0x200000 0)[j]? := by
  have hs' : r.block.size = (r.block.data.length : Int) := hs
  have hlen : r.block.data.length = 0x300000 := by omega
  have hpadlen : (r.block.data ++ List.replicate 0x100000 (0 : Nat)).length = 0x400000 := by
    rw [List.length_append, List.length_replicate]; omega
  have hsetlen : ((r.block.data ++ List.replicate 0x100000 (0 : Nat)).set 0xffd5
      0x25).length = 0x400000 := by
    rw [List.length_set]; exact hpadlen
  have hPlen : (((r.block.data ++ List.replicate 0x100000 (0 : Nat)).set 0xffd5 0x25).set
      0xffd7 0x0d).length = 0x400000 := by
    rw [List.length_set]; exact hsetlen
  have hb3len : ((((r.block.data ++ List.replicate 0x100000 (0 : Nat)).set 0xffd5
      0x25).set 0xffd7 0x0d) ++ List.replicate 0x200000 (0 : Nat)).length = 0x600000 := by
    rw [List.length_append, List.length_replicate, hPlen]
  have hset1 : Block.setitem ⟨r.block.data ++ List.replicate 0x100000 0, 0x400000⟩
      0xffd5 0x25 =
      .ok ⟨(r.block.data ++ List.replicate 0x100000 0).set 0xffd5 0x25, 0x400000⟩ :=
    setitem_ok (by norm_num)
      (by show (0xffd5 : Int) < (0x400000 : Int); norm_num)
      (by show (0xffd5 : Int) <
            ((r.block.data ++ List.replicate 0x100000 (0 : Nat)).length : Int)
          omega)
      (by norm_num) (by norm_num)
  have hset2 : Block.setitem ⟨(r.block.data ++ List.replicate 0x100000 0).set 0xffd5 0x25,
      0x400000⟩ 0xffd7 0x0d =
      .ok ⟨((r.block.data ++ List.replicate 0x100000 0).set 0xffd5 0x25).set 0xffd7 0x0d,
        0x400000⟩ :=
    setitem_ok (by norm_num)
      (by show (0xffd7 : Int) < (0x400000 : Int); norm_num)
      (by show (0xffd7 : Int) <
            (((r.block.data ++ List.replicate 0x100000 (0 : Nat)).set 0xffd5
              0x25).length : Int)
          omega)
      (by norm_num) (by norm_num)
  obtain ⟨b4, hrun, hsz4, hlen4, hpt⟩ := expandCopyLoop_ok 0x8000
    ⟨(((r.block.data ++ List.replicate 0x100000 0).set 0xffd5 0x25).set 0xffd7 0x0d)
      ++ List.replicate 0x200000 0, 0x600000⟩ 0x8000
    (by show (0x600000 : Int) =
          (((((r.block.data ++ List.replicate 0x100000 (0 : Nat)).set 0xffd5 0x25).set
            0xffd7 0x0d) ++ List.replicate 0x200000 (0 : Nat)).length : Int)
        omega)
    (by intro w hw
        rcases List.mem_append.mp hw with h1 | h1
        · rcases List.mem_or_eq_of_mem_set h1 with h2 | h2
          · rcases List.mem_or_eq_of_mem_set h2 with h3 | h3
            · rcases List.mem_append.mp h3 with h4 | h4
              · exact hb w h4
              · have := List.eq_of_mem_replicate h4; omega
            · omega
          · omega
        · have := List.eq_of_mem_replicate h1; omega)
    (by omega)
    (by show 0x400000 + 0x8000 + 0x8000 ≤
          ((((r.block.data ++ List.replicate 0x100000 (0 : Nat)).set 0xffd5 0x25).set
            0xffd7 0x0d) ++ List.replicate 0x200000 (0 : Nat)).length
        omega)
  refine ⟨⟨b4, r.type⟩, ?_, rfl, ?_, ?_, ?_⟩
  · simp only [Rom.expand, ht, hsz, Int.reduceAdd, reduceIte, hset1, hset2, hrun]
    norm_num
  · exact hsz4
  · exact hlen4.trans hb3len
  · intro j
    show b4.data[j]? = _
    rw [hpt j]
    by_cases hj : 0x408000 ≤ j ∧ j < 0x410000
    · rw [if_pos (show 0x400000 + 0x8000 ≤ j ∧ j < 0x400000 + 0x8000 + 0x8000 by omega),
        if_pos hj]
      show ((((r.block.data ++ List.replicate 0x100000 0).set 0xffd5 0x25).set 0xffd7 0x0d)
        ++ List.replicate 0x200000 0)[j - 0x400000]? = _
      rw [List.getElem?_append, if_pos (by omega)]
    · rw [if_neg (show ¬(0x400000 + 0x8000 ≤ j ∧ j < 0x400000 + 0x8000 + 0x8000) by omega),
        if_neg hj]

/-- Claim C5 (amended): for an Earthbound-type buffer of size 0x300000
with well-formed size and byte values, expand(0x500000) fails with
InvalidArgument, and expand(0x600000) succeeds and yields exactly
0x600000 bytes with the control bytes at offsets 0xffd5 and 0xffd7
patched to 0x25 and 0x0d; the copy step mirrors the bytes at offsets
0x8000..0xffff (after patching) to offsets 0x408000..0x40ffff, while
offsets 0x400000..0x407fff hold the appended zero fill - the first
0x8000 bytes of the buffer are not copied to offset 0x400000. -/
theorem expand_boundary_amended (r : Rom) (ht : r.type = "Earthbound")
    (hs : sizeOk r.block) (hb : bytesOk r.block) (hsz : r.block.size = 0x300000) :
    Rom.expand r 0x500000 = .error .invalidArgument ∧
    ∃ r1, Rom.expand r 0x600000 = .ok r1 ∧
      r1.block.size = 0x600000 ∧ r1.block.data.length = 0x600000 ∧
      r1.block.data[0xffd5]? = some 0x25 ∧
      r1.block.data[0xffd7]? = some 0x0d ∧
      (∀ i : Nat, 0x8000 ≤ i → i < 0x10000 →
        r1.block.data[0x400000 + i]? = r1.block.data[i]?) ∧
      (∀ i : Nat, i < 0x8000 → r1.block.data[0x400000 + i]? = some 0) := by
  constructor
  · unfold Rom.expand
    rw [if_pos ht, if_pos (by decide)]
  · obtain ⟨r1, hexp, _, hsz1, hlen1, hpt⟩ := expand_eb_spec r ht hs hb hsz
    have hs' : r.block.size = (r.block.data.length : Int) := hs
    have hlen : r.block.data.length = 0x300000 := by omega
    have hpadlen : (r.block.data ++ List.replicate 0x100000 (0 : Nat)).length =
        0x400000 := by
      rw [List.length_append, List.length_replicate]; omega
    have hsetlen : ((r.block.data ++ List.replicate 0x100000 (0 : Nat)).set 0xffd5
        0x25).length = 0x400000 := by
      rw [List.length_set]; exact hpadlen
    have hPlen : (((r.block.data ++ List.replicate 0x100000 (0 : Nat)).set 0xffd5
        0x25).set 0xffd7 0x0d).length = 0x400000 := by
      rw [List.length_set]; exact hsetlen
    refine ⟨r1, hexp, hsz1, hlen1, ?_, ?_, ?_, ?_⟩
    · rw [hpt 0xffd5, if_neg (by omega), List.getElem?_append, if_pos (by omega),
        List.getElem?_set, if_neg (by omega), List.getElem?_set, if_pos (by omega),
        if_pos (by omega)]
    · rw [hpt 0xffd7, if_neg (by omega), List.getElem?_append, if_pos (by omega),
        List.getElem?_set, if_pos (by omega), if_pos (by omega)]
    · intro i h1 h2
      rw [hpt (0x400000 + i), hpt i, if_pos (by omega), if_neg (by omega),
        List.getElem?_append, if_pos (by omega), show 0x400000 + i - 0x400000 = i by omega]
    · intro i h1
      rw [hpt (0x400000 + i), if_neg (by omega), List.getElem?_append, if_neg (by omega),
        hPlen, show 0x400000 + i - 0x400000 = i by omega, List.getElem?_replicate,
        if_pos (by omega)]

theorem expand_boundary_amended_witness :
    Rom.expand ⟨⟨List.replicate 0x300000 0, 0x300000⟩, "Earthbound"⟩ 0x500000 =
      .error .invalidArgument ∧
    ∃ r1, Rom.expand ⟨⟨List.replicate 0x300000 0, 0x300000⟩, "Earthbound"⟩ 0x600000 =
      .ok r1 ∧
      r1.block.size = 0x600000 ∧ r1.block.data.length = 0x600000 ∧
      r1.block.data[0xffd5]? = some 0x25 ∧
      r1.block.data[0xffd7]? = some 0x0d ∧
      (∀ i : Nat, 0x8000 ≤ i → i < 0x10000 →
        r1.block.data[0x400000 + i]? = r1.block.data[i]?) ∧
      (∀ i : Nat, i < 0x8000 → r1.block.data[0x400000 + i]? = some 0) :=
  expand_boundary_amended ⟨⟨List.replicate 0x300000 0, 0x300000⟩, "Earthbound"⟩ rfl
    (by show (0x300000 : Int) = ((List.replicate 0x300000 (0 : Nat)).length : Int)
        rw [List.length_replicate]; norm_num)
    (by intro w hw
        have := List.eq_of_mem_replicate hw
        omega)
    rfl

/-- Claim C5, counterexample to the literal copy direction: on a
0x300000-byte Earthbound buffer whose byte 0 is 1 and all other bytes
are 0, expanding to 0x600000 leaves the byte at offset 0x400000 equal
to 0 (from the appended zero fill), not equal to byte 0 of the buffer;
the loop instead mirrors offset 0x8000 to offset 0x408000. -/
theorem expand_mirror_cex :
    ∃ r1, Rom.expand ⟨⟨1 :: List.replicate 0x2fffff 0, 0x300000⟩, "Earthbound"⟩
        0x600000 = .ok r1 ∧
      ((1 :: List.replicate 0x2fffff (0 : Nat)) : List Nat)[0]? = some 1 ∧
      r1.block.data[0x400000]? = some 0 ∧
      r1.block.data[0x408000]? = r1.block.data[0x8000]? := by
  have hDlen : ((1 :: List.replicate 0x2fffff (0 : Nat)) : List Nat).length =
      0x300000 := by
    rw [List.length_cons, List.length_replicate]
  obtain ⟨r1, hexp, _, _, _, hpt⟩ := expand_eb_spec
    ⟨⟨1 :: List.replicate 0x2fffff 0, 0x300000⟩, "Earthbound"⟩ rfl
    (by show (0x300000 : Int) = (((1 :: List.replicate 0x2fffff (0 : Nat)) :
          List Nat).length : Int)
        omega)
    (by intro w hw
        rcases List.mem_cons.mp hw with h | h
        · omega
        · have := List.eq_of_mem_replicate h; omega)
    rfl
  have hpadlen : (((1 :: List.replicate 0x2fffff (0 : Nat)) : List Nat) ++
      List.replicate 0x100000 (0 : Nat)).length = 0x400000 := by
    rw [List.length_append, List.length_replicate]; omega
  have hPlen : (((((1 :: List.replicate 0x2fffff (0 : Nat)) : List Nat) ++
      List.replicate 0x100000 (0 : Nat)).set 0xffd5 0x25).set 0xffd7 0x0d).length =
      0x400000 := by
    rw [List.length_set, List.length_set]; exact hpadlen
  have hPlen2 : ((((⟨⟨1 :: List.replicate 0x2fffff 0, 0x300000⟩, "Earthbound"⟩ :
      Rom).block.data ++ List.replicate 0x100000 (0 : Nat)).set 0xffd5 0x25).set
      0xffd7 0x0d).length = 0x400000 := hPlen
  refine ⟨r1, hexp, List.getElem?_cons_zero, ?_, ?_⟩
  · rw [hpt 0x400000, if_neg (by omega), List.getElem?_append, if_neg (by omega),
      hPlen, show 0x400000 - 0x400000 = 0 by omega, List.getElem?_replicate,
      if_pos (by omega)]
  · rw [hpt 0x408000, hpt 0x8000, if_pos (by omega), if_neg (by omega),
      List.getElem?_append, if_pos (by omega), show 0x408000 - 0x400000 = 0x8000 by omega]

end DataBlocks
